import Mathlib

/-!
Verification development for the auth-monitor ingestion pipeline
(`src/ingest/{main,schemas,queue,config}.py` and `src/worker.py`).

The registry store (a relational database with unique constraints on
`Device.serial_number` and `DeviceProtocol (device, protocol_type)`) is
modelled as a pair of partial maps keyed by those unique keys.  Timestamps
that the worker compares (`token_created_at`) are modelled as integers
(microseconds since the epoch, the image of timezone-aware datetimes under
`astimezone(timezone.utc)`); the HTTP-side string validation of timestamps
is modelled separately with an explicit parser below.

Exceptions raised by the storage layer inside an item's transaction are
modelled with an oracle (`ItemOutcome`) assigning to each item either a
normal run, an `IntegrityError`, or another exception with a message, which
is exactly the case split that `process_batch` in `src/worker.py` performs.
-/

/-- Registry row for the `device_registry_device` table, minus the
database-managed `id`/`created_at`/`updated_at` columns (see `Device` in
`src/worker.py`).  The unique `serial_number` is the map key. -/
structure Device where
  name : String
  location : Option String
deriving Repr, DecidableEq

/-- Registry row for the `device_registry_deviceprotocol` table, minus the
database-managed columns (see `DeviceProtocol` in `src/worker.py`).  The
unique pair `(device, protocol_type)` is the map key; since devices are
unique by serial number, the key is `(serial_number, protocol_type)`. -/
structure ProtoRow where
  mb_ip : String
  token : String
  token_created_at : Int
deriving Repr, DecidableEq

/-- The registry store: both tables as partial maps on their unique keys. -/
@[ext] structure Registry where
  devices : String → Option Device
  protocols : String → String → Option ProtoRow

/-- The registry before any batch has been processed. -/
def emptyRegistry : Registry := ⟨fun _ => none, fun _ _ => none⟩

/-- One item of a batch message after the per-item parsing at the top of the
loop body of `process_batch` (`src/worker.py` lines 62-66): `location` is
`none` when the wire value was null or empty, and `token_created_at` is the
UTC instant in microseconds. -/
structure BatchItem where
  serial_number : String
  location : Option String
  protocol_type : String
  token : String
  token_created_at : Int
deriving Repr, DecidableEq

/-- Python truthiness of the (already null-normalized) `location` value, as
used in the `elif location and device.location != location` guard. -/
def locTruthy : Option String → Bool
  | none => false
  | some s => decide (s ≠ "")

/-- Outcome classification used for the `created`/`updated`/`noop` counters
in `process_batch`. -/
inductive Outcome where
  | created
  | updated
  | noop
deriving Repr, DecidableEq

/-- The `device_stats` / `protocol_stats` dictionaries of `process_batch`. -/
structure Stats where
  created : Nat
  updated : Nat
  noop : Nat
deriving Repr, DecidableEq

/-- Increment the counter selected by an outcome. -/
def Stats.bump (s : Stats) : Outcome → Stats
  | .created => {s with created := s.created + 1}
  | .updated => {s with updated := s.updated + 1}
  | .noop => {s with noop := s.noop + 1}

/-- The `Device.get_or_create` plus conditional location update of
`src/worker.py` lines 70-79: create the device with empty name and the
item's location, else update the location only when the incoming location
is truthy and differs from the stored one. -/
def deviceStep (it : BatchItem) (R : Registry) : Registry × Outcome :=
  match R.devices it.serial_number with
  | none =>
      ({R with devices := fun s =>
          if s = it.serial_number then some ⟨"", it.location⟩ else R.devices s},
       .created)
  | some d =>
      if locTruthy it.location ∧ d.location ≠ it.location then
        ({R with devices := fun s =>
            if s = it.serial_number then some ⟨d.name, it.location⟩ else R.devices s},
         .updated)
      else (R, .noop)

/-- The `DeviceProtocol.get_or_create` plus conditional token refresh of
`src/worker.py` lines 81-98: create the protocol row with the batch caller
address and the item's token, else overwrite `mb_ip`/`token`/
`token_created_at` only when the incoming `token_created_at` is strictly
greater than the stored one. -/
def protocolStep (mb : String) (it : BatchItem) (R : Registry) : Registry × Outcome :=
  match R.protocols it.serial_number it.protocol_type with
  | none =>
      ({R with protocols := fun s p =>
          if s = it.serial_number ∧ p = it.protocol_type then
            some ⟨mb, it.token, it.token_created_at⟩
          else R.protocols s p},
       .created)
  | some pr =>
      if pr.token_created_at < it.token_created_at then
        ({R with protocols := fun s p =>
            if s = it.serial_number ∧ p = it.protocol_type then
              some ⟨mb, it.token, it.token_created_at⟩
            else R.protocols s p},
         .updated)
      else (R, .noop)

/-- The body of one successful per-item transaction of `process_batch`:
device step followed by protocol step, returning the new registry and the
two outcome classifications. -/
def processItemOk (mb : String) (it : BatchItem) (R : Registry) :
    Registry × Outcome × Outcome :=
  let d := deviceStep it R
  let p := protocolStep mb it d.1
  (p.1, d.2, p.2)

/-- Registry after one successful item transaction. -/
def applyOk (mb : String) (it : BatchItem) (R : Registry) : Registry :=
  (processItemOk mb it R).1

/-- Oracle for what the storage layer does inside one item's transaction:
a normal run, an `IntegrityError` (uniqueness race), or any other
exception carrying its message. -/
inductive ItemOutcome where
  | ok
  | integrity
  | other (msg : String)

/-- Per-item error record appended to the `errors` list of `process_batch`. -/
structure ItemError where
  idx : Nat
  error : String
deriving Repr, DecidableEq

/-- Result of the batch loop of `process_batch`: final registry, the two
stats dictionaries and the collected per-item errors. -/
structure BatchResult where
  registry : Registry
  deviceStats : Stats
  protocolStats : Stats
  errors : List ItemError

/-- The item loop of `process_batch` (`src/worker.py` lines 61-105) over
already-parsed items paired with their transaction outcomes:
* a normal item runs `processItemOk` and bumps both stats;
* an `IntegrityError` rolls the transaction back, logs, sleeps and
  `continue`s to the next item (no retry, no error record);
* any other exception rolls back and appends `{"idx": idx, "error": e}`,
  then processing continues. -/
def processFrom (mb : String) :
    Nat → Registry → Stats → Stats → List ItemError →
    List (BatchItem × ItemOutcome) → BatchResult
  | _, R, ds, ps, errs, [] => ⟨R, ds, ps, errs⟩
  | idx, R, ds, ps, errs, (it, outc) :: rest =>
    match outc with
    | .ok =>
        match processItemOk mb it R with
        | (R2, dOut, pOut) =>
            processFrom mb (idx + 1) R2 (ds.bump dOut) (ps.bump pOut) errs rest
    | .integrity => processFrom mb (idx + 1) R ds ps errs rest
    | .other e => processFrom mb (idx + 1) R ds ps (errs ++ [⟨idx, e⟩]) rest

/-- `process_batch` on a single batch of parsed items with an outcome
oracle, starting from fresh counters. -/
def processBatchTyped (mb : String) (pairs : List (BatchItem × ItemOutcome))
    (R : Registry) : BatchResult :=
  processFrom mb 0 R ⟨0, 0, 0⟩ ⟨0, 0, 0⟩ [] pairs

/-- Pair every item of a batch with a normal transaction outcome. -/
def allOk (items : List BatchItem) : List (BatchItem × ItemOutcome) :=
  items.map fun it => (it, ItemOutcome.ok)

/-- Registry effect of processing a list of `(caller address, item)` pairs
in order, each with a successful transaction. -/
def applyList : List (String × BatchItem) → Registry → Registry
  | [], R => R
  | (mb, it) :: rest, R => applyList rest (applyOk mb it R)

/-- Registry effect of processing a sequence of batches in order, each
batch carrying its own caller address. -/
def applySeq : List (String × List BatchItem) → Registry → Registry
  | [], R => R
  | (mb, its) :: rest, R => applySeq rest (applyList (its.map fun it => (mb, it)) R)

/-- Flatten a sequence of batches to the processed `(address, item)` pairs
in processing order. -/
def flatBatches (bs : List (String × List BatchItem)) : List (String × BatchItem) :=
  bs.flatMap fun b => b.2.map fun it => (b.1, it)

/-- The `token_created_at` values of all processed items for a fixed
`(serial_number, protocol_type)` pair, in processing order. -/
def timesFor (l : List (String × BatchItem)) (s p : String) : List Int :=
  l.filterMap fun q =>
    if s = q.2.serial_number ∧ p = q.2.protocol_type then
      some q.2.token_created_at
    else none

theorem timesFor_cons (mb : String) (it : BatchItem)
    (l : List (String × BatchItem)) (s p : String) :
    timesFor ((mb, it) :: l) s p =
      if s = it.serial_number ∧ p = it.protocol_type then
        it.token_created_at :: timesFor l s p
      else timesFor l s p := by
  by_cases h : s = it.serial_number ∧ p = it.protocol_type <;>
    simp [timesFor, List.filterMap_cons, h]

theorem applyList_append (l₁ l₂ : List (String × BatchItem)) (R : Registry) :
    applyList (l₁ ++ l₂) R = applyList l₂ (applyList l₁ R) := by
  induction l₁ generalizing R with
  | nil => rfl
  | cons q rest ih =>
    obtain ⟨mb, it⟩ := q
    simp [applyList, ih]

theorem applySeq_eq_applyList (bs : List (String × List BatchItem)) (R : Registry) :
    applySeq bs R = applyList (flatBatches bs) R := by
  induction bs generalizing R with
  | nil => rfl
  | cons b rest ih =>
    obtain ⟨mb, its⟩ := b
    simp [applySeq, flatBatches, ih, applyList_append]

theorem deviceStep_protocols (it : BatchItem) (R : Registry) :
    ((deviceStep it R).1).protocols = R.protocols := by
  unfold deviceStep
  split
  · rfl
  · split <;> rfl

theorem protocolStep_devices (mb : String) (it : BatchItem) (R : Registry) :
    ((protocolStep mb it R).1).devices = R.devices := by
  unfold protocolStep
  split
  · rfl
  · split <;> rfl

theorem protocolStep_protocols (mb : String) (it : BatchItem) (R : Registry)
    (s p : String) :
    ((protocolStep mb it R).1).protocols s p =
      if s = it.serial_number ∧ p = it.protocol_type then
        match R.protocols it.serial_number it.protocol_type with
        | none => some ⟨mb, it.token, it.token_created_at⟩
        | some pr =>
          if pr.token_created_at < it.token_created_at then
            some ⟨mb, it.token, it.token_created_at⟩
          else some pr
      else R.protocols s p := by
  unfold protocolStep
  cases hpr : R.protocols it.serial_number it.protocol_type with
  | none => rfl
  | some pr =>
    by_cases hlt : pr.token_created_at < it.token_created_at
    · simp only [if_pos hlt]
    · simp only [if_neg hlt]
      by_cases h : s = it.serial_number ∧ p = it.protocol_type
      · obtain ⟨h1, h2⟩ := h
        subst h1
        subst h2
        simp [hpr]
      · simp [h]

theorem deviceStep_devices (it : BatchItem) (R : Registry) (s : String) :
    ((deviceStep it R).1).devices s =
      if s = it.serial_number then
        match R.devices it.serial_number with
        | none => some ⟨"", it.location⟩
        | some d =>
          some ⟨d.name, if locTruthy it.location then it.location else d.location⟩
      else R.devices s := by
  unfold deviceStep
  cases hd : R.devices it.serial_number with
  | none => rfl
  | some d =>
    by_cases hc : locTruthy it.location = true ∧ d.location ≠ it.location
    · simp only [if_pos hc]
      simp only [hc.1, if_true]
    · simp only [if_neg hc]
      by_cases htr : locTruthy it.location
      · have hne : d.location = it.location := by
          rcases not_and_or.mp hc with h1 | h2
          · exact absurd htr h1
          · exact not_not.mp h2
        by_cases h : s = it.serial_number
        · subst h
          rw [hd]
          simp only [htr, if_true]
          cases d with
          | mk n l =>
            simp only [Device.location] at hne
            simp [hne]
        · simp [h]
      · by_cases h : s = it.serial_number
        · subst h
          rw [hd]
          simp only [Bool.not_eq_true] at htr
          simp only [htr, Bool.false_eq_true, if_false]
          cases d
          simp
        · simp [h]

theorem processItemOk_protocols (mb : String) (it : BatchItem) (R : Registry)
    (s p : String) :
    ((processItemOk mb it R).1).protocols s p =
      if s = it.serial_number ∧ p = it.protocol_type then
        match R.protocols it.serial_number it.protocol_type with
        | none => some ⟨mb, it.token, it.token_created_at⟩
        | some pr =>
          if pr.token_created_at < it.token_created_at then
            some ⟨mb, it.token, it.token_created_at⟩
          else some pr
      else R.protocols s p := by
  show ((protocolStep mb it (deviceStep it R).1).1).protocols s p = _
  rw [protocolStep_protocols, deviceStep_protocols]

theorem processItemOk_devices (mb : String) (it : BatchItem) (R : Registry)
    (s : String) :
    ((processItemOk mb it R).1).devices s =
      if s = it.serial_number then
        match R.devices it.serial_number with
        | none => some ⟨"", it.location⟩
        | some d =>
          some ⟨d.name, if locTruthy it.location then it.location else d.location⟩
      else R.devices s := by
  show ((protocolStep mb it (deviceStep it R).1).1).devices s = _
  rw [protocolStep_devices, deviceStep_devices]

theorem applyOk_protocols (mb : String) (it : BatchItem) (R : Registry)
    (s p : String) :
    ((applyOk mb it R)).protocols s p =
      if s = it.serial_number ∧ p = it.protocol_type then
        match R.protocols it.serial_number it.protocol_type with
        | none => some ⟨mb, it.token, it.token_created_at⟩
        | some pr =>
          if pr.token_created_at < it.token_created_at then
            some ⟨mb, it.token, it.token_created_at⟩
          else some pr
      else R.protocols s p :=
  processItemOk_protocols mb it R s p

theorem applyOk_devices (mb : String) (it : BatchItem) (R : Registry)
    (s : String) :
    ((applyOk mb it R)).devices s =
      if s = it.serial_number then
        match R.devices it.serial_number with
        | none => some ⟨"", it.location⟩
        | some d =>
          some ⟨d.name, if locTruthy it.location then it.location else d.location⟩
      else R.devices s :=
  processItemOk_devices mb it R s

theorem applyList_protocols_bounds (l : List (String × BatchItem)) :
    ∀ (R : Registry) (s p : String),
      ((applyList l R).protocols s p = none →
        R.protocols s p = none ∧ timesFor l s p = []) ∧
      (∀ pr, (applyList l R).protocols s p = some pr →
        ((∃ pr0, R.protocols s p = some pr0 ∧
            pr.token_created_at = pr0.token_created_at) ∨
          pr.token_created_at ∈ timesFor l s p) ∧
        (∀ pr0, R.protocols s p = some pr0 →
          pr0.token_created_at ≤ pr.token_created_at) ∧
        (∀ t ∈ timesFor l s p, t ≤ pr.token_created_at)) := by
  induction l with
  | nil =>
    intro R s p
    refine ⟨fun h => ⟨h, rfl⟩, fun pr h => ⟨Or.inl ⟨pr, h, rfl⟩, ?_, ?_⟩⟩
    · intro pr0 h0
      have h' : R.protocols s p = some pr := h
      rw [h'] at h0
      exact le_of_eq (congrArg ProtoRow.token_created_at (Option.some.inj h0)).symm
    · intro t ht
      simp [timesFor] at ht
  | cons q rest ih =>
    obtain ⟨mb, it⟩ := q
    intro R s p
    have hstep : applyList ((mb, it) :: rest) R = applyList rest (applyOk mb it R) := rfl
    have hA := applyOk_protocols mb it R s p
    rw [timesFor_cons, hstep]
    by_cases hm : s = it.serial_number ∧ p = it.protocol_type
    · obtain ⟨h1, h2⟩ := hm
      subst h1
      subst h2
      rw [if_pos ⟨rfl, rfl⟩] at hA
      rw [if_pos ⟨rfl, rfl⟩]
      cases hR : R.protocols it.serial_number it.protocol_type with
      | none =>
        rw [hR] at hA
        constructor
        · intro h
          rcases (ih (applyOk mb it R) it.serial_number it.protocol_type).1 h with
            ⟨hnone, -⟩
          rw [hA] at hnone
          exact absurd hnone (by simp)
        · intro pr h
          obtain ⟨hsrc, hbound, htimes⟩ :=
            (ih (applyOk mb it R) it.serial_number it.protocol_type).2 pr h
          have hnew : it.token_created_at ≤ pr.token_created_at := by
            have := hbound ⟨mb, it.token, it.token_created_at⟩ hA
            simpa using this
          refine ⟨?_, ?_, ?_⟩
          · rcases hsrc with ⟨pr0, hpr0, heq⟩ | hmem
            · rw [hA] at hpr0
              obtain rfl : pr0 = ⟨mb, it.token, it.token_created_at⟩ :=
                Option.some.inj hpr0.symm
              exact Or.inr (by simp [heq])
            · exact Or.inr (List.mem_cons_of_mem _ hmem)
          · intro pr0 h0
            exact absurd h0 (by simp)
          · intro t ht
            rcases List.mem_cons.mp ht with rfl | hmem
            · exact hnew
            · exact htimes t hmem
      | some pr0 =>
        rw [hR] at hA
        set v : ProtoRow :=
          if pr0.token_created_at < it.token_created_at then
            ⟨mb, it.token, it.token_created_at⟩
          else pr0 with hv
        have hA' : (applyOk mb it R).protocols it.serial_number it.protocol_type =
            some v := by
          rw [hA, hv]
          by_cases hlt : pr0.token_created_at < it.token_created_at <;> simp [hlt]
        have hv_ge_old : pr0.token_created_at ≤ v.token_created_at := by
          rw [hv]
          split
          · next hlt => exact le_of_lt hlt
          · exact le_refl _
        have hv_ge_new : it.token_created_at ≤ v.token_created_at := by
          rw [hv]
          split
          · exact le_refl _
          · next hlt => omega
        have hv_src : v.token_created_at = it.token_created_at ∨
            v.token_created_at = pr0.token_created_at := by
          rw [hv]
          split
          · exact Or.inl rfl
          · exact Or.inr rfl
        constructor
        · intro h
          rcases (ih (applyOk mb it R) it.serial_number it.protocol_type).1 h with
            ⟨hnone, -⟩
          rw [hA'] at hnone
          exact absurd hnone (by simp)
        · intro pr h
          obtain ⟨hsrc, hbound, htimes⟩ :=
            (ih (applyOk mb it R) it.serial_number it.protocol_type).2 pr h
          have hge_v : v.token_created_at ≤ pr.token_created_at := hbound v hA'
          refine ⟨?_, ?_, ?_⟩
          · rcases hsrc with ⟨pr1, hpr1, heq⟩ | hmem
            · rw [hA'] at hpr1
              obtain rfl : pr1 = v := Option.some.inj hpr1.symm
              rcases hv_src with hvi | hvo
              · exact Or.inr (by simp [heq, hvi])
              · exact Or.inl ⟨pr0, rfl, by rw [heq, hvo]⟩
            · exact Or.inr (List.mem_cons_of_mem _ hmem)
          · intro pr1 h1
            obtain rfl : pr1 = pr0 := Option.some.inj h1.symm
            exact le_trans hv_ge_old hge_v
          · intro t ht
            rcases List.mem_cons.mp ht with rfl | hmem
            · exact le_trans hv_ge_new hge_v
            · exact htimes t hmem
    · rw [if_neg hm] at hA
      rw [if_neg hm]
      have htrans := ih (applyOk mb it R) s p
      constructor
      · intro h
        rcases htrans.1 h with ⟨hnone, htimes⟩
        rw [hA] at hnone
        exact ⟨hnone, htimes⟩
      · intro pr h
        obtain ⟨hsrc, hbound, htimes⟩ := htrans.2 pr h
        refine ⟨?_, ?_, ?_⟩
        · rcases hsrc with ⟨pr0, hpr0, heq⟩ | hmem
          · exact Or.inl ⟨pr0, hA ▸ hpr0, heq⟩
          · exact Or.inr hmem
        · intro pr0 h0
          exact hbound pr0 (hA ▸ h0)
        · exact htimes

/-- C1: For every fixed `(serial_number, protocol_type)` pair, after the
Reconciler processes any sequence of batches in any arrival order starting
from an empty registry, the stored `token_created_at` equals the maximum
`token_created_at` over all processed items for that pair (it is one of the
processed values and an upper bound of all of them, and a row exists exactly
when some item for the pair was processed); moreover an existing
`DeviceProtocol` row is overwritten only when the incoming
`token_created_at` is strictly greater than the stored one — an incoming
item with `token_created_at` less than or equal to the stored value leaves
the row (token, token_created_at and mb_ip) unchanged. -/
theorem c1_recency_monotonicity (batches : List (String × List BatchItem))
    (s p : String) :
    ((timesFor (flatBatches batches) s p ≠ [] →
        ((applySeq batches emptyRegistry).protocols s p).isSome) ∧
      (∀ pr, (applySeq batches emptyRegistry).protocols s p = some pr →
        pr.token_created_at ∈ timesFor (flatBatches batches) s p ∧
        ∀ t ∈ timesFor (flatBatches batches) s p, t ≤ pr.token_created_at)) ∧
    (∀ (R : Registry) (mb : String) (it : BatchItem) (pr : ProtoRow),
      R.protocols s p = some pr → it.serial_number = s → it.protocol_type = p →
      it.token_created_at ≤ pr.token_created_at →
      (applyOk mb it R).protocols s p = some pr) := by
  have hbounds := applyList_protocols_bounds (flatBatches batches) emptyRegistry s p
  rw [applySeq_eq_applyList]
  refine ⟨⟨?_, ?_⟩, ?_⟩
  · intro hne
    cases h : (applyList (flatBatches batches) emptyRegistry).protocols s p with
    | none => exact absurd (hbounds.1 h).2 hne
    | some pr => rfl
  · intro pr h
    obtain ⟨hsrc, -, htimes⟩ := hbounds.2 pr h
    refine ⟨?_, htimes⟩
    rcases hsrc with ⟨pr0, hpr0, -⟩ | hmem
    · exact absurd hpr0 (by simp [emptyRegistry])
    · exact hmem
  · intro R mb it pr hpr h1 h2 hle
    subst h1
    subst h2
    rw [applyOk_protocols, if_pos ⟨rfl, rfl⟩, hpr]
    simp [not_lt.mpr hle]

/-- Concrete instantiation of the recency-monotonicity theorem: two batches
for the same `(serial, protocol)` pair arriving newest-first leave the row
holding the newest token time, which is a member of and an upper bound of
the processed times. -/
def c1DemoBatches : List (String × List BatchItem) :=
  [("10.0.0.1", [⟨"SN-A", none, "rps", "tokA", 5⟩]),
   ("10.0.0.2", [⟨"SN-A", none, "rps", "tokB", 3⟩])]

theorem c1_recency_monotonicity_witness :
    (applySeq c1DemoBatches emptyRegistry).protocols "SN-A" "rps" =
      some ⟨"10.0.0.1", "tokA", 5⟩ ∧
    (5 : Int) ∈ timesFor (flatBatches c1DemoBatches) "SN-A" "rps" ∧
    ∀ t ∈ timesFor (flatBatches c1DemoBatches) "SN-A" "rps", t ≤ (5 : Int) := by
  have hstored : (applySeq c1DemoBatches emptyRegistry).protocols "SN-A" "rps" =
      some ⟨"10.0.0.1", "tokA", 5⟩ := by decide
  have h := (c1_recency_monotonicity c1DemoBatches "SN-A" "rps").1.2 _ hstored
  exact ⟨hstored, h.1, h.2⟩

/-- C3: what `process_batch` actually does on an `IntegrityError`
(`src/worker.py` lines 99-102): it logs, sleeps 0.1s and `continue`s to the
next item — the registry, both stats dictionaries and the error list are
all left untouched, the item is not retried and no item-level error is
recorded, contradicting both the claim and the code's own
"Integrity error; retrying" log message. -/
theorem c3_integrity_skip (mb : String) (it : BatchItem) (R : Registry)
    (ds ps : Stats) (errs : List ItemError) (idx : Nat)
    (rest : List (BatchItem × ItemOutcome)) :
    processFrom mb idx R ds ps errs ((it, ItemOutcome.integrity) :: rest) =
      processFrom mb (idx + 1) R ds ps errs rest ∧
    processBatchTyped mb [(it, ItemOutcome.integrity)] R =
      ⟨R, ⟨0, 0, 0⟩, ⟨0, 0, 0⟩, []⟩ :=
  ⟨rfl, rfl⟩

/-- The items of a pair list whose serial number matches `s`, in processing
order. -/
def matchingFor (l : List (String × BatchItem)) (s : String) : List BatchItem :=
  l.filterMap fun q => if s = q.2.serial_number then some q.2 else none

theorem matchingFor_cons (mb : String) (it : BatchItem)
    (l : List (String × BatchItem)) (s : String) :
    matchingFor ((mb, it) :: l) s =
      if s = it.serial_number then it :: matchingFor l s else matchingFor l s := by
  by_cases h : s = it.serial_number <;>
    simp [matchingFor, List.filterMap_cons, h]

/-- Evolution of a device's stored location over a list of incoming
(already null-normalized) locations: each truthy incoming value replaces
the current one, every other value is ignored. -/
def foldLoc : Option String → List (Option String) → Option String
  | x, [] => x
  | x, lc :: ls => foldLoc (if locTruthy lc then lc else x) ls

/-- The last truthy location of a list, if any. -/
def lastTruthy : List (Option String) → Option (Option String)
  | [] => none
  | lc :: ls =>
    match lastTruthy ls with
    | some r => some r
    | none => if locTruthy lc then some lc else none

theorem foldLoc_eq_lastTruthy (ls : List (Option String)) :
    ∀ x, foldLoc x ls = (lastTruthy ls).getD x := by
  induction ls with
  | nil => intro x; rfl
  | cons lc ls ih =>
    intro x
    show foldLoc (if locTruthy lc then lc else x) ls = _
    rw [ih]
    cases h : lastTruthy ls with
    | some r => simp [lastTruthy, h]
    | none =>
      by_cases htr : locTruthy lc <;> simp [lastTruthy, h, htr]

theorem foldLoc_idem (ls : List (Option String)) (x : Option String) :
    foldLoc (foldLoc x ls) ls = foldLoc x ls := by
  rw [foldLoc_eq_lastTruthy, foldLoc_eq_lastTruthy]
  cases h : lastTruthy ls <;> simp

theorem applyList_devices (l : List (String × BatchItem)) :
    ∀ (R : Registry) (s : String),
      (applyList l R).devices s =
        match R.devices s with
        | some d =>
          some ⟨d.name, foldLoc d.location ((matchingFor l s).map fun it => it.location)⟩
        | none =>
          match matchingFor l s with
          | [] => none
          | it0 :: rest => some ⟨"", foldLoc it0.location (rest.map fun it => it.location)⟩ := by
  induction l with
  | nil =>
    intro R s
    cases hd : R.devices s with
    | none => simpa [applyList, matchingFor] using hd
    | some d =>
      have h0 : (applyList [] R).devices s = some d := hd
      rw [h0]
      cases d
      rfl
  | cons q rest ih =>
    obtain ⟨mb, it⟩ := q
    intro R s
    have hstep : applyList ((mb, it) :: rest) R = applyList rest (applyOk mb it R) := rfl
    rw [hstep, ih (applyOk mb it R) s, matchingFor_cons]
    have hdev := applyOk_devices mb it R s
    by_cases h : s = it.serial_number
    · subst h
      cases hd : R.devices it.serial_number with
      | none =>
        rw [hd] at hdev
        simp only [if_pos rfl] at hdev ⊢
        rw [hdev]
        simp [foldLoc]
      | some d =>
        rw [hd] at hdev
        simp only [if_pos rfl] at hdev ⊢
        rw [hdev]
        simp [foldLoc]
    · simp only [if_neg h] at hdev ⊢
      rw [hdev]

theorem applyList_devices_idem (l : List (String × BatchItem)) (R : Registry)
    (s : String) :
    (applyList l (applyList l R)).devices s = (applyList l R).devices s := by
  rw [applyList_devices l (applyList l R) s, applyList_devices l R s]
  cases hd : R.devices s with
  | some d => simp [foldLoc_idem]
  | none =>
    cases hm : matchingFor l s with
    | nil => simp
    | cons it0 restm =>
      have hfold : foldLoc (foldLoc it0.location (restm.map fun it => it.location))
          (it0.location :: restm.map fun it => it.location) =
          foldLoc it0.location (restm.map fun it => it.location) := by
        show foldLoc (if locTruthy it0.location then it0.location else
            foldLoc it0.location (restm.map fun it => it.location))
            (restm.map fun it => it.location) =
          foldLoc it0.location (restm.map fun it => it.location)
        by_cases htr : locTruthy it0.location
        · rw [if_pos htr]
        · rw [if_neg htr, foldLoc_idem]
      simp [hfold]

theorem applyList_protocols_untouched (l : List (String × BatchItem)) :
    ∀ (R : Registry) (s p : String), timesFor l s p = [] →
      (applyList l R).protocols s p = R.protocols s p := by
  induction l with
  | nil => intro R s p _; rfl
  | cons q rest ih =>
    obtain ⟨mb, it⟩ := q
    intro R s p ht
    rw [timesFor_cons] at ht
    by_cases hm : s = it.serial_number ∧ p = it.protocol_type
    · rw [if_pos hm] at ht
      exact absurd ht (by simp)
    · rw [if_neg hm] at ht
      have hstep : applyList ((mb, it) :: rest) R = applyList rest (applyOk mb it R) := rfl
      rw [hstep, ih (applyOk mb it R) s p ht, applyOk_protocols, if_neg hm]

theorem applyList_protocols_stable (l : List (String × BatchItem)) :
    ∀ (R : Registry) (s p : String) (pr : ProtoRow),
      R.protocols s p = some pr →
      (∀ t ∈ timesFor l s p, t ≤ pr.token_created_at) →
      (applyList l R).protocols s p = some pr := by
  induction l with
  | nil => intro R s p pr hpr _; exact hpr
  | cons q rest ih =>
    obtain ⟨mb, it⟩ := q
    intro R s p pr hpr hle
    rw [timesFor_cons] at hle
    have hstep : applyList ((mb, it) :: rest) R = applyList rest (applyOk mb it R) := rfl
    rw [hstep]
    by_cases hm : s = it.serial_number ∧ p = it.protocol_type
    · rw [if_pos hm] at hle
      have hle_head : it.token_created_at ≤ pr.token_created_at :=
        hle _ (List.mem_cons_self _ _)
      have hnext : (applyOk mb it R).protocols s p = some pr := by
        obtain ⟨h1, h2⟩ := hm
        subst h1
        subst h2
        rw [applyOk_protocols, if_pos ⟨rfl, rfl⟩, hpr]
        simp [not_lt.mpr hle_head]
      exact ih (applyOk mb it R) s p pr hnext
        (fun t htm => hle t (List.mem_cons_of_mem _ htm))
    · rw [if_neg hm] at hle
      have hnext : (applyOk mb it R).protocols s p = some pr := by
        rw [applyOk_protocols, if_neg hm]
        exact hpr
      exact ih (applyOk mb it R) s p pr hnext hle

theorem applyList_protocols_idem (l : List (String × BatchItem)) (R : Registry)
    (s p : String) :
    (applyList l (applyList l R)).protocols s p = (applyList l R).protocols s p := by
  cases ht : timesFor l s p with
  | nil => exact applyList_protocols_untouched l (applyList l R) s p ht
  | cons t ts =>
    cases hR1 : (applyList l R).protocols s p with
    | none =>
      have := (applyList_protocols_bounds l R s p).1 hR1
      rw [ht] at this
      exact absurd this.2 (by simp)
    | some pr =>
      have hub := ((applyList_protocols_bounds l R s p).2 pr hR1).2.2
      exact applyList_protocols_stable l (applyList l R) s p pr hR1 hub

theorem applyList_idem (l : List (String × BatchItem)) (R : Registry) :
    applyList l (applyList l R) = applyList l R := by
  refine Registry.ext ?_ ?_
  · funext s
    exact applyList_devices_idem l R s
  · funext s p
    exact applyList_protocols_idem l R s p

/-- A protocol row already absorbs an item when it exists and its stored
`token_created_at` is at least the item's: processing the item is a no-op
for the protocol table. -/
def absorbedP (R : Registry) (it : BatchItem) : Prop :=
  ∃ pr, R.protocols it.serial_number it.protocol_type = some pr ∧
    it.token_created_at ≤ pr.token_created_at

/-- A device row already absorbs an item when it exists and, if the item
carries a truthy location, the stored location equals it: processing the
item is a no-op for the device table. -/
def absorbedD (R : Registry) (it : BatchItem) : Prop :=
  ∃ d, R.devices it.serial_number = some d ∧
    (locTruthy it.location → d.location = it.location)

theorem deviceStep_absorbed (it : BatchItem) (R : Registry)
    (h : absorbedD R it) : deviceStep it R = (R, .noop) := by
  obtain ⟨d, hd, hloc⟩ := h
  have hcond : ¬(locTruthy it.location = true ∧ d.location ≠ it.location) := by
    rintro ⟨h1, h2⟩
    exact h2 (hloc h1)
  simp [deviceStep, hd, hcond]

theorem protocolStep_absorbed (mb : String) (it : BatchItem) (R : Registry)
    (h : absorbedP R it) : protocolStep mb it R = (R, .noop) := by
  obtain ⟨pr, hpr, hle⟩ := h
  simp [protocolStep, hpr, not_lt.mpr hle]

theorem processItemOk_absorbed (mb : String) (it : BatchItem) (R : Registry)
    (hd : absorbedD R it) (hp : absorbedP R it) :
    processItemOk mb it R = (R, .noop, .noop) := by
  simp [processItemOk, deviceStep_absorbed it R hd, protocolStep_absorbed mb it R hp]

theorem processItemOk_pabsorbed (mb : String) (it : BatchItem) (R : Registry)
    (hp : absorbedP R it) :
    ((processItemOk mb it R).1).protocols = R.protocols ∧
    (processItemOk mb it R).2.2 = Outcome.noop := by
  have hps : protocolStep mb it (deviceStep it R).1 = ((deviceStep it R).1, .noop) := by
    apply protocolStep_absorbed
    obtain ⟨pr, hpr, hle⟩ := hp
    refine ⟨pr, ?_, hle⟩
    rw [deviceStep_protocols]
    exact hpr
  constructor
  · show ((protocolStep mb it (deviceStep it R).1).1).protocols = _
    rw [hps]
    exact deviceStep_protocols it R
  · show (protocolStep mb it (deviceStep it R).1).2 = _
    rw [hps]

theorem processFrom_registry (mb : String) (items : List BatchItem) :
    ∀ (idx : Nat) (R : Registry) (ds ps : Stats) (errs : List ItemError),
      (processFrom mb idx R ds ps errs (allOk items)).registry =
        applyList (items.map fun it => (mb, it)) R := by
  induction items with
  | nil => intro idx R ds ps errs; rfl
  | cons it rest ih =>
    intro idx R ds ps errs
    rcases hpo : processItemOk mb it R with ⟨R2, dOut, pOut⟩
    have hstep : processFrom mb idx R ds ps errs (allOk (it :: rest)) =
        processFrom mb (idx + 1) R2 (ds.bump dOut) (ps.bump pOut) errs (allOk rest) := by
      show processFrom mb idx R ds ps errs ((it, ItemOutcome.ok) :: allOk rest) = _
      simp [processFrom, hpo]
    rw [hstep, ih]
    have hR2 : applyOk mb it R = R2 := congrArg Prod.fst hpo
    simp [applyList, hR2]

theorem processFrom_absorbed (mb : String) (items : List BatchItem) :
    ∀ (idx : Nat) (R : Registry) (ds ps : Stats) (errs : List ItemError),
      (∀ it ∈ items, absorbedD R it ∧ absorbedP R it) →
      processFrom mb idx R ds ps errs (allOk items) =
        ⟨R, ⟨ds.created, ds.updated, ds.noop + items.length⟩,
            ⟨ps.created, ps.updated, ps.noop + items.length⟩, errs⟩ := by
  induction items with
  | nil => intro idx R ds ps errs _; rfl
  | cons it rest ih =>
    intro idx R ds ps errs habs
    obtain ⟨hd, hp⟩ := habs it (List.mem_cons_self it rest)
    have hpo := processItemOk_absorbed mb it R hd hp
    have hstep : processFrom mb idx R ds ps errs (allOk (it :: rest)) =
        processFrom mb (idx + 1) R (ds.bump .noop) (ps.bump .noop) errs (allOk rest) := by
      show processFrom mb idx R ds ps errs ((it, ItemOutcome.ok) :: allOk rest) = _
      simp [processFrom, hpo]
    rw [hstep, ih (idx + 1) R (ds.bump .noop) (ps.bump .noop) errs
      (fun x hx => habs x (List.mem_cons_of_mem _ hx))]
    simp only [Stats.bump, BatchResult.mk.injEq, Stats.mk.injEq, List.length_cons,
      true_and, and_true]
    omega

theorem processFrom_pabsorbed (mb : String) (items : List BatchItem) :
    ∀ (idx : Nat) (R : Registry) (ds ps : Stats) (errs : List ItemError),
      (∀ it ∈ items, absorbedP R it) →
      (processFrom mb idx R ds ps errs (allOk items)).protocolStats =
        ⟨ps.created, ps.updated, ps.noop + items.length⟩ ∧
      (processFrom mb idx R ds ps errs (allOk items)).errors = errs := by
  induction items with
  | nil => intro idx R ds ps errs _; exact ⟨rfl, rfl⟩
  | cons it rest ih =>
    intro idx R ds ps errs habs
    have hp := habs it (List.mem_cons_self it rest)
    obtain ⟨hproto, hnoop⟩ := processItemOk_pabsorbed mb it R hp
    rcases hpo : processItemOk mb it R with ⟨R2, dOut, pOut⟩
    have hR2 : R2.protocols = R.protocols := by
      rw [← hproto, hpo]
    have hpOut : pOut = .noop := by rw [← hnoop, hpo]
    subst hpOut
    have hstep : processFrom mb idx R ds ps errs (allOk (it :: rest)) =
        processFrom mb (idx + 1) R2 (ds.bump dOut) (ps.bump .noop) errs (allOk rest) := by
      show processFrom mb idx R ds ps errs ((it, ItemOutcome.ok) :: allOk rest) = _
      simp [processFrom, hpo]
    rw [hstep]
    have habs' : ∀ x ∈ rest, absorbedP R2 x := by
      intro x hx
      obtain ⟨pr, hpr, hle⟩ := habs x (List.mem_cons_of_mem _ hx)
      refine ⟨pr, ?_, hle⟩
      rw [hR2]
      exact hpr
    obtain ⟨h1, h2⟩ := ih (idx + 1) R2 (ds.bump dOut) (ps.bump .noop) errs habs'
    refine ⟨?_, h2⟩
    rw [h1]
    simp only [Stats.bump, Stats.mk.injEq, List.length_cons, true_and, and_true]
    omega

theorem mem_timesFor (mb : String) (items : List BatchItem) (it : BatchItem)
    (hm : it ∈ items) :
    it.token_created_at ∈
      timesFor (items.map fun x => (mb, x)) it.serial_number it.protocol_type := by
  simp only [timesFor, List.mem_filterMap]
  exact ⟨(mb, it), List.mem_map_of_mem _ hm, by simp⟩

theorem absorbedP_after (mb : String) (items : List BatchItem) (R : Registry)
    (it : BatchItem) (hm : it ∈ items) :
    absorbedP (applyList (items.map fun x => (mb, x)) R) it := by
  have hmem := mem_timesFor mb items it hm
  cases hR1 : (applyList (items.map fun x => (mb, x)) R).protocols
      it.serial_number it.protocol_type with
  | none =>
    have hb := (applyList_protocols_bounds (items.map fun x => (mb, x)) R
      it.serial_number it.protocol_type).1 hR1
    rw [hb.2] at hmem
    exact absurd hmem (List.not_mem_nil _)
  | some pr =>
    exact ⟨pr, hR1, ((applyList_protocols_bounds (items.map fun x => (mb, x)) R
      it.serial_number it.protocol_type).2 pr hR1).2.2 _ hmem⟩

theorem matchingFor_map (mb : String) (items : List BatchItem) (s : String) :
    matchingFor (items.map fun x => (mb, x)) s =
      items.filterMap fun x => if s = x.serial_number then some x else none := by
  simp only [matchingFor, List.filterMap_map]
  rfl

theorem matchingFor_nodup_self (mb : String) (items : List BatchItem)
    (hnd : (items.map fun x => x.serial_number).Nodup) (it : BatchItem)
    (hm : it ∈ items) :
    matchingFor (items.map fun x => (mb, x)) it.serial_number = [it] := by
  rw [matchingFor_map]
  induction items with
  | nil => cases hm
  | cons a rest ih =>
    rw [List.map_cons, List.nodup_cons] at hnd
    rcases List.mem_cons.mp hm with rfl | hmem
    · rw [List.filterMap_cons, if_pos rfl]
      have hrest : ∀ x ∈ rest,
          (if it.serial_number = x.serial_number then some x else none) = none := by
        intro x hx
        rw [if_neg]
        intro he
        exact hnd.1 (he ▸ List.mem_map_of_mem _ hx)
      rw [List.filterMap_eq_nil_iff.mpr hrest]
    · have hne : it.serial_number ≠ a.serial_number := by
        intro he
        apply hnd.1
        rw [← he]
        exact List.mem_map_of_mem (fun x => x.serial_number) hmem
      rw [List.filterMap_cons, if_neg hne]
      exact ih hnd.2 hmem

theorem absorbedD_after (mb : String) (items : List BatchItem) (R : Registry)
    (hnd : (items.map fun x => x.serial_number).Nodup)
    (it : BatchItem) (hm : it ∈ items) :
    absorbedD (applyList (items.map fun x => (mb, x)) R) it := by
  have hchar := applyList_devices (items.map fun x => (mb, x)) R it.serial_number
  rw [matchingFor_nodup_self mb items hnd it hm] at hchar
  cases hd : R.devices it.serial_number with
  | none =>
    rw [hd] at hchar
    refine ⟨⟨"", it.location⟩, ?_, fun _ => rfl⟩
    simpa [foldLoc] using hchar
  | some d =>
    rw [hd] at hchar
    refine ⟨⟨d.name, if locTruthy it.location then it.location else d.location⟩, ?_, ?_⟩
    · simpa [foldLoc] using hchar
    · intro htr
      simp [htr]

theorem processBatchTyped_registry (mb : String) (items : List BatchItem)
    (R : Registry) :
    (processBatchTyped mb (allOk items) R).registry =
      applyList (items.map fun it => (mb, it)) R :=
  processFrom_registry mb items 0 R ⟨0, 0, 0⟩ ⟨0, 0, 0⟩ []

/-- C2 (amended): applying the same batch to the Reconciler twice in
succession leaves the registry state after the second application equal to
the state after the first (so no duplicate Device/DeviceProtocol rows ever
appear), the second application classifies every item as a protocol no-op
and records no errors; and, provided the batch's items carry pairwise
distinct serial numbers, the second application also classifies every item
as a device no-op.  (Without the distinct-serial proviso the device
counters of the second run need not be all no-ops: two items sharing a
serial number with different truthy locations re-play their location
updates on every run — see the counterexample.) -/
theorem c2_idempotence_amended (mb : String) (items : List BatchItem)
    (R : Registry) :
    (processBatchTyped mb (allOk items)
        (processBatchTyped mb (allOk items) R).registry).registry =
      (processBatchTyped mb (allOk items) R).registry ∧
    (processBatchTyped mb (allOk items)
        (processBatchTyped mb (allOk items) R).registry).protocolStats =
      ⟨0, 0, items.length⟩ ∧
    (processBatchTyped mb (allOk items)
        (processBatchTyped mb (allOk items) R).registry).errors = [] ∧
    ((items.map fun x => x.serial_number).Nodup →
      (processBatchTyped mb (allOk items)
          (processBatchTyped mb (allOk items) R).registry).deviceStats =
        ⟨0, 0, items.length⟩) := by
  have hreg1 := processBatchTyped_registry mb items R
  set R1 := (processBatchTyped mb (allOk items) R).registry with hR1def
  have habsP : ∀ it ∈ items, absorbedP R1 it := by
    intro it hm
    rw [hreg1]
    exact absorbedP_after mb items R it hm
  refine ⟨?_, ?_, ?_, ?_⟩
  · rw [processBatchTyped_registry mb items R1, hreg1, applyList_idem]
  · have h1 := (processFrom_pabsorbed mb items 0 R1 ⟨0, 0, 0⟩ ⟨0, 0, 0⟩ [] habsP).1
    show (processFrom mb 0 R1 ⟨0, 0, 0⟩ ⟨0, 0, 0⟩ [] (allOk items)).protocolStats = _
    rw [h1]
    simp
  · exact (processFrom_pabsorbed mb items 0 R1 ⟨0, 0, 0⟩ ⟨0, 0, 0⟩ [] habsP).2
  · intro hnd
    have habsD : ∀ it ∈ items, absorbedD R1 it := by
      intro it hm
      rw [hreg1]
      exact absorbedD_after mb items R hnd it hm
    have hall := processFrom_absorbed mb items 0 R1 ⟨0, 0, 0⟩ ⟨0, 0, 0⟩ []
      (fun it hm => ⟨habsD it hm, habsP it hm⟩)
    show (processFrom mb 0 R1 ⟨0, 0, 0⟩ ⟨0, 0, 0⟩ [] (allOk items)).deviceStats = _
    rw [hall]
    simp

/-- Batch exhibiting the failure of the no-op half of the idempotence
claim: two items share a serial number but carry different truthy
locations, so the second application re-plays both location updates. -/
def c2DemoItems : List BatchItem :=
  [⟨"SN-B", some "locA", "rps", "tokB", 0⟩,
   ⟨"SN-B", some "locB", "rps", "tokB", 0⟩]

theorem c2_idempotence_counterexample :
    (processBatchTyped "203.0.113.7" (allOk c2DemoItems)
        (processBatchTyped "203.0.113.7" (allOk c2DemoItems)
          emptyRegistry).registry).deviceStats = ⟨0, 2, 0⟩ ∧
    (⟨0, 2, 0⟩ : Stats) ≠ ⟨0, 0, c2DemoItems.length⟩ :=
  ⟨by decide, by decide⟩

/-- Batch with pairwise distinct serial numbers instantiating the amended
idempotence theorem. -/
def c2WitnessItems : List BatchItem :=
  [⟨"SN-W1", some "locA", "rps", "tok1", 1⟩,
   ⟨"SN-W2", none, "pms", "tok2", 2⟩]

theorem c2_idempotence_amended_witness :
    ((c2WitnessItems.map fun x => x.serial_number).Nodup) ∧
    (processBatchTyped "203.0.113.8" (allOk c2WitnessItems)
        (processBatchTyped "203.0.113.8" (allOk c2WitnessItems)
          emptyRegistry).registry).deviceStats = ⟨0, 0, c2WitnessItems.length⟩ := by
  have hnd : (c2WitnessItems.map fun x => x.serial_number).Nodup := by decide
  exact ⟨hnd,
    (c2_idempotence_amended "203.0.113.8" c2WitnessItems emptyRegistry).2.2.2 hnd⟩

/-!
HTTP-side validation (`src/ingest/schemas.py`).

`datetime.fromisoformat` belongs to the Python standard library (an
external collaborator); it is modelled here by an explicit parser for the
ISO-8601 profile the pipeline exchanges,
`YYYY-MM-DD[THH[:MM[:SS[.f{1,6}]]]][±HH:MM[:SS]]`, with calendar-valid
dates and in-range time fields.  A string is parsed to a naive datetime
(`tz = none`) when it carries no trailing numeric offset, exactly as
`fromisoformat` does; the `Z` suffix is not understood by the parser
itself — the validators textually replace every `"Z"` with `"+00:00"`
first, exactly as `schemas.py` does. -/

/-- A parsed `datetime.datetime`: calendar fields plus the `tzinfo` UTC
offset in seconds (`none` for a naive datetime). -/
structure PyDatetime where
  year : Nat
  month : Nat
  day : Nat
  hour : Nat
  minute : Nat
  second : Nat
  microsecond : Nat
  tz : Option Int
deriving Repr, DecidableEq

def digitVal (c : Char) : Option Nat :=
  if c.isDigit then some (c.toNat - 48) else none

/-- Read exactly `n` digits, most significant first. -/
def readFixed : Nat → Nat → List Char → Option (Nat × List Char)
  | 0, acc, l => some (acc, l)
  | n + 1, acc, l =>
    match l with
    | [] => none
    | c :: rest =>
      match digitVal c with
      | none => none
      | some d => readFixed n (acc * 10 + d) rest

def expectChar (c : Char) : List Char → Option (List Char)
  | [] => none
  | x :: rest => if x = c then some rest else none

def isLeap (y : Nat) : Bool :=
  y % 4 = 0 && (y % 100 ≠ 0 || y % 400 = 0)

def daysInMonth (y m : Nat) : Nat :=
  if m = 2 then (if isLeap y then 29 else 28)
  else if m = 4 ∨ m = 6 ∨ m = 9 ∨ m = 11 then 30
  else 31

/-- Numeric UTC-offset magnitude `HH:MM[:SS]`, in seconds. -/
def parseOffsetMag (r : List Char) : Option (Nat × List Char) := do
  let (hh, r1) ← readFixed 2 0 r
  if 23 < hh then none else
  let r2 ← expectChar ':' r1
  let (mm, r3) ← readFixed 2 0 r2
  if 59 < mm then none else
  match r3 with
  | ':' :: r4 => do
    let (ss, r5) ← readFixed 2 0 r4
    if 59 < ss then none else
    pure (hh * 3600 + mm * 60 + ss, r5)
  | _ => pure (hh * 3600 + mm * 60, r3)

/-- Trailing `tzinfo` part: end of input gives a naive datetime, a signed
offset consuming the whole remainder gives an aware one. -/
def parseTzEnd (r : List Char) : Option (Option Int) :=
  match r with
  | [] => some none
  | '+' :: r1 =>
    match parseOffsetMag r1 with
    | some (m, []) => some (some (Int.ofNat m))
    | _ => none
  | '-' :: r1 =>
    match parseOffsetMag r1 with
    | some (m, []) => some (some (-(Int.ofNat m)))
    | _ => none
  | _ => none

/-- Optional fractional seconds (1 to 6 digits, scaled to microseconds)
followed by the tz part. -/
def parseFracEnd (r : List Char) : Option (Nat × Option Int) :=
  match r with
  | '.' :: r1 =>
    let ds := r1.takeWhile fun c => c.isDigit
    let rest := r1.dropWhile fun c => c.isDigit
    if ds.length = 0 ∨ 6 < ds.length then none
    else
      let v := ds.foldl (fun a c => a * 10 + (c.toNat - 48)) 0
      match parseTzEnd rest with
      | none => none
      | some tz => some (v * 10 ^ (6 - ds.length), tz)
  | _ =>
    match parseTzEnd r with
    | none => none
    | some tz => some (0, tz)

/-- Time-of-day `HH[:MM[:SS[.frac]]]` followed by the tz part. -/
def parseTimeEnd (r : List Char) : Option (Nat × Nat × Nat × Nat × Option Int) := do
  let (h, r1) ← readFixed 2 0 r
  if 23 < h then none else
  match r1 with
  | ':' :: r2 => do
    let (mi, r3) ← readFixed 2 0 r2
    if 59 < mi then none else
    match r3 with
    | ':' :: r4 => do
      let (s, r5) ← readFixed 2 0 r4
      if 59 < s then none else
      match parseFracEnd r5 with
      | none => none
      | some (micro, tz) => pure (h, mi, s, micro, tz)
    | _ =>
      match parseTzEnd r3 with
      | none => none
      | some tz => pure (h, mi, 0, 0, tz)
  | _ =>
    match parseTzEnd r1 with
    | none => none
    | some tz => pure (h, 0, 0, 0, tz)

/-- The model of `datetime.fromisoformat` on the exchanged ISO-8601
profile (see the section comment above). -/
def pyFromIso (l : List Char) : Option PyDatetime := do
  let (y, r1) ← readFixed 4 0 l
  if y = 0 then none else
  let r2 ← expectChar '-' r1
  let (mo, r3) ← readFixed 2 0 r2
  if mo < 1 ∨ 12 < mo then none else
  let r4 ← expectChar '-' r3
  let (d, r5) ← readFixed 2 0 r4
  if d < 1 ∨ daysInMonth y mo < d then none else
  match r5 with
  | [] => pure ⟨y, mo, d, 0, 0, 0, 0, none⟩
  | 'T' :: r6 =>
    match parseTimeEnd r6 with
    | none => none
    | some (h, mi, s, micro, tz) => pure ⟨y, mo, d, h, mi, s, micro, tz⟩
  | _ => none

/-- The textual `v.replace("Z", "+00:00")` preprocessing of
`schemas.py`, on a single character. -/
def replaceZchar (c : Char) : List Char :=
  if c = 'Z' then '+' :: '0' :: '0' :: ':' :: '0' :: '0' :: [] else [c]

/-- The textual `v.replace("Z", "+00:00")` preprocessing of `schemas.py`:
every occurrence of the character `Z` becomes `+00:00`. -/
def replaceZ (l : List Char) : List Char :=
  l.flatMap replaceZchar

/-- `Item.validate_token_created_at` (`src/ingest/schemas.py` lines 22-33):
replace `Z` by `+00:00`, parse as ISO-8601, reject a naive result with
"Timezone required", wrap any failure in the "Invalid timezone-aware
ISO8601" message. -/
def validate_token_created_at (v : String) : Except String PyDatetime :=
  match pyFromIso (replaceZ v.data) with
  | none => .error "Invalid timezone-aware ISO8601: Invalid isoformat string"
  | some dt =>
    if dt.tz.isSome then .ok dt
    else .error "Invalid timezone-aware ISO8601: Timezone required"

/-- `IngestRequest.validate_sent_at` (`src/ingest/schemas.py` lines 41-52)
has the identical body. -/
def validate_sent_at (v : String) : Except String PyDatetime :=
  validate_token_created_at v

theorem replaceZ_append (l₁ l₂ : List Char) :
    replaceZ (l₁ ++ l₂) = replaceZ l₁ ++ replaceZ l₂ := by
  simp [replaceZ]

theorem replaceZ_noZ (l : List Char) (h : ∀ c ∈ l, c ≠ 'Z') :
    replaceZ l = l := by
  induction l with
  | nil => rfl
  | cons c rest ih =>
    have hc : c ≠ 'Z' := h c (List.mem_cons_self c rest)
    show replaceZchar c ++ replaceZ rest = c :: rest
    rw [replaceZchar, if_neg hc, ih fun x hx => h x (List.mem_cons_of_mem _ hx)]
    rfl

theorem replaceZ_string_z (s : String) :
    replaceZ (s ++ "Z").data = replaceZ s.data ++ "+00:00".data := by
  rw [String.data_append, replaceZ_append]
  rfl

theorem replaceZ_string_offset (s : String) :
    replaceZ (s ++ "+00:00").data = replaceZ s.data ++ "+00:00".data := by
  rw [String.data_append, replaceZ_append]
  rfl

/-- C6: timestamp validation for `sent_at` and `token_created_at` treats a
trailing literal `Z` exactly as a `+00:00` offset (for every string `s`,
validating `s ++ "Z"` and `s ++ "+00:00"` gives identical results), and
rejects every timestamp string that carries no explicit UTC offset at all:
if the string contains no `Z` marker and parses, if at all, only to a
naive datetime, both validators return an error. -/
theorem c6_timestamp_validation (s : String) :
    (validate_token_created_at (s ++ "Z") =
        validate_token_created_at (s ++ "+00:00") ∧
      validate_sent_at (s ++ "Z") = validate_sent_at (s ++ "+00:00")) ∧
    ((∀ c ∈ s.data, c ≠ 'Z') →
      (∀ dt, pyFromIso s.data = some dt → dt.tz = none) →
      (∃ e, validate_token_created_at s = Except.error e) ∧
      (∃ e, validate_sent_at s = Except.error e)) := by
  constructor
  · have hz : validate_token_created_at (s ++ "Z") =
        validate_token_created_at (s ++ "+00:00") := by
      unfold validate_token_created_at
      rw [replaceZ_string_z, replaceZ_string_offset]
    exact ⟨hz, hz⟩
  · intro hnoZ hnaive
    have hr : replaceZ s.data = s.data := replaceZ_noZ s.data hnoZ
    have hrej : ∃ e, validate_token_created_at s = Except.error e := by
      unfold validate_token_created_at
      rw [hr]
      cases hp : pyFromIso s.data with
      | none => exact ⟨_, rfl⟩
      | some dt =>
        have hnone := hnaive dt hp
        refine ⟨"Invalid timezone-aware ISO8601: Timezone required", ?_⟩
        show (if dt.tz.isSome = true then Except.ok dt
          else Except.error "Invalid timezone-aware ISO8601: Timezone required") = _
        rw [hnone]
        rfl
    exact ⟨hrej, hrej⟩

theorem c6_timestamp_validation_witness :
    ((∀ c ∈ ("2026-01-02T03:04:05" : String).data, c ≠ 'Z') ∧
      (∀ dt, pyFromIso ("2026-01-02T03:04:05" : String).data = some dt →
        dt.tz = none)) ∧
    validate_token_created_at "2026-01-02T03:04:05Z" =
      validate_token_created_at "2026-01-02T03:04:05+00:00" ∧
    (validate_token_created_at "2026-01-02T03:04:05Z").isOk = true ∧
    (∃ e, validate_token_created_at "2026-01-02T03:04:05" = Except.error e) := by
  have h1 : ∀ c ∈ ("2026-01-02T03:04:05" : String).data, c ≠ 'Z' := by decide
  have h2 : ∀ dt, pyFromIso ("2026-01-02T03:04:05" : String).data = some dt →
      dt.tz = none := by decide
  have hmain := c6_timestamp_validation "2026-01-02T03:04:05"
  exact ⟨⟨h1, h2⟩, hmain.1.1, by decide, (hmain.2 h1 h2).1⟩

/-- The fixed supported protocol set of `src/ingest/config.py` line 36. -/
def ALLOWED_PROTOCOLS : List String := ["rps", "pms", "css", "dss"]

/-- Python's `str.lower()` as used on protocol codes: per-character ASCII
lowercasing. -/
def pyLower (s : String) : String := ⟨s.data.map Char.toLower⟩

/-- `Item.validate_and_normalize_protocol` (`src/ingest/schemas.py` lines
14-20): lowercase the value, reject it unless the lowercase form is in the
supported set, return the lowercase form. -/
def validate_and_normalize_protocol (v : String) : Except String String :=
  let lower_v := pyLower v
  if lower_v ∈ ALLOWED_PROTOCOLS then Except.ok lower_v
  else Except.error
    ("protocol_type must be one of: " ++ String.intercalate "," ALLOWED_PROTOCOLS)

theorem allowed_lower_fixed : ∀ c ∈ ALLOWED_PROTOCOLS, pyLower c = c := by decide

/-- C7: an item's `protocol_type` is accepted iff it case-insensitively
matches one of the fixed supported codes, every accepted value is
normalized to lowercase, and two inputs differing only in case validate
to the same result. -/
theorem c7_protocol_normalization (v w : String) :
    ((validate_and_normalize_protocol v).isOk = true ↔
      ∃ c ∈ ALLOWED_PROTOCOLS, pyLower v = pyLower c) ∧
    (∀ out, validate_and_normalize_protocol v = .ok out → out = pyLower v) ∧
    (pyLower v = pyLower w →
      validate_and_normalize_protocol v = validate_and_normalize_protocol w) := by
  refine ⟨?_, ?_, ?_⟩
  · constructor
    · intro hok
      unfold validate_and_normalize_protocol at hok
      by_cases hm : pyLower v ∈ ALLOWED_PROTOCOLS
      · exact ⟨pyLower v, hm, (allowed_lower_fixed _ hm).symm⟩
      · rw [if_neg hm] at hok
        simp [Except.isOk, Except.toBool] at hok
    · rintro ⟨c, hc, he⟩
      have hfix := allowed_lower_fixed c hc
      rw [hfix] at he
      unfold validate_and_normalize_protocol
      rw [if_pos (he ▸ hc)]
      rfl
  · intro out hout
    unfold validate_and_normalize_protocol at hout
    by_cases hm : pyLower v ∈ ALLOWED_PROTOCOLS
    · rw [if_pos hm] at hout
      exact (Except.ok.inj hout).symm
    · rw [if_neg hm] at hout
      exact absurd hout (by simp)
  · intro heq
    unfold validate_and_normalize_protocol
    rw [heq]

theorem c7_protocol_normalization_witness :
    validate_and_normalize_protocol "RPS" = .ok "rps" ∧
    validate_and_normalize_protocol "RPS" = validate_and_normalize_protocol "rps" ∧
    (validate_and_normalize_protocol "ftp").isOk = false := by
  refine ⟨rfl, ?_, by decide⟩
  exact (c7_protocol_normalization "RPS" "rps").2.2 (by decide)

/-- Raw per-item dict from an envelope's `items` list, with its fields as
the JSON string values the pipeline exchanges (a missing or wrongly-typed
field is also rejected by the source; the model covers the string-typed
shape). -/
structure RawItem where
  serial_number : String
  location : Option String
  protocol_type : String
  token : String
  token_created_at : String
deriving Repr, DecidableEq

/-- A validated `Item` (`src/ingest/schemas.py` lines 7-33). -/
structure Item where
  serial_number : String
  location : Option String
  protocol_type : String
  token : String
  token_created_at : PyDatetime
deriving Repr, DecidableEq

/-- `Item.model_validate`: the pydantic field constraints of `Item` in
declaration order — `serial_number` 16..24 chars, `protocol_type`
normalized against the fixed set, `token` non-empty, `token_created_at`
timezone-aware.  Pydantic collects all field errors into one message; the
model reports the first, which coincides on accept/reject. -/
def validateItem (r : RawItem) : Except String Item := do
  if r.serial_number.length < 16 ∨ 24 < r.serial_number.length then
    throw "serial_number: length must be between 16 and 24"
  let proto ← validate_and_normalize_protocol r.protocol_type
  if r.token.length < 1 then throw "token: length must be at least 1"
  let tca ← validate_token_created_at r.token_created_at
  pure ⟨r.serial_number, r.location, proto, r.token, tca⟩

/-- One entry of the per-item `errors` list of the ingest response. -/
structure ErrorDetail where
  index : Nat
  code : String
  detail : String
deriving Repr, DecidableEq

/-- Result of the per-item validation loop of `process_request`. -/
structure ItemsResult where
  accepted : Nat
  validItems : List Item
  errors : List ErrorDetail
deriving Repr, DecidableEq

/-- The per-item validation loop of `process_request`
(`src/ingest/main.py` lines 72-85): items are validated in order, accepted
items are appended to `valid_items`, failures are appended to `errors`,
and the loop `break`s as soon as the error list reaches 20 entries. -/
def runItemsAux : Nat → Nat → List RawItem → ItemsResult
  | _, _, [] => ⟨0, [], []⟩
  | idx, errCount, r :: rest =>
    match validateItem r with
    | .ok it =>
      ⟨(runItemsAux (idx + 1) errCount rest).accepted + 1,
        it :: (runItemsAux (idx + 1) errCount rest).validItems,
        (runItemsAux (idx + 1) errCount rest).errors⟩
    | .error msg =>
      if 20 ≤ errCount + 1 then ⟨0, [], [⟨idx, "validation_error", msg⟩]⟩
      else
        ⟨(runItemsAux (idx + 1) (errCount + 1) rest).accepted,
          (runItemsAux (idx + 1) (errCount + 1) rest).validItems,
          ⟨idx, "validation_error", msg⟩ ::
            (runItemsAux (idx + 1) (errCount + 1) rest).errors⟩

def runItems (l : List RawItem) : ItemsResult := runItemsAux 0 0 l

/-- The prefix of the item list the validation loop actually examines: the
whole list, or everything up to and including the item that produces the
error exhausting the given error budget. -/
def cappedPrefix (budget : Nat) : List RawItem → List RawItem
  | [] => []
  | r :: rest =>
    match validateItem r with
    | .ok _ => r :: cappedPrefix budget rest
    | .error _ =>
      if budget ≤ 1 then [r]
      else r :: cappedPrefix (budget - 1) rest

theorem toOption_ok {ε α : Type} (a : α) :
    (Except.ok a : Except ε α).toOption = some a := rfl

theorem toOption_error {ε α : Type} (e : ε) :
    (Except.error e : Except ε α).toOption = none := rfl

theorem runItemsAux_validItems (l : List RawItem) :
    ∀ (idx c : Nat), c < 20 →
      (runItemsAux idx c l).validItems =
        (cappedPrefix (20 - c) l).filterMap fun r => (validateItem r).toOption := by
  induction l with
  | nil => intro idx c _; rfl
  | cons r rest ih =>
    intro idx c hc
    cases hv : validateItem r with
    | ok it =>
      simp only [runItemsAux, cappedPrefix, hv, List.filterMap_cons, toOption_ok]
      rw [ih (idx + 1) c hc]
    | error msg =>
      by_cases hbreak : 20 ≤ c + 1
      · have hb1 : 20 - c ≤ 1 := by omega
        simp only [runItemsAux, cappedPrefix, hv, if_pos hbreak, if_pos hb1,
          List.filterMap_cons, toOption_error, List.filterMap_nil]
      · have hb1 : ¬(20 - c ≤ 1) := by omega
        have hc' : c + 1 < 20 := by omega
        simp only [runItemsAux, cappedPrefix, hv, if_neg hbreak, if_neg hb1,
          List.filterMap_cons, toOption_error]
        have harith : 20 - c - 1 = 20 - (c + 1) := by omega
        rw [harith, ih (idx + 1) (c + 1) hc']

theorem runItemsAux_accepted (l : List RawItem) :
    ∀ (idx c : Nat),
      (runItemsAux idx c l).accepted = (runItemsAux idx c l).validItems.length := by
  induction l with
  | nil => intro idx c; rfl
  | cons r rest ih =>
    intro idx c
    cases hv : validateItem r with
    | ok it =>
      simp only [runItemsAux, hv, List.length_cons]
      rw [ih (idx + 1) c]
    | error msg =>
      by_cases hbreak : 20 ≤ c + 1
      · simp only [runItemsAux, hv, if_pos hbreak, List.length_nil]
      · simp only [runItemsAux, hv, if_neg hbreak]
        exact ih (idx + 1) (c + 1)

theorem runItemsAux_errors_le (l : List RawItem) :
    ∀ (idx c : Nat), c < 20 →
      (runItemsAux idx c l).errors.length + c ≤ 20 := by
  induction l with
  | nil => intro idx c _; simp [runItemsAux]; omega
  | cons r rest ih =>
    intro idx c hc
    cases hv : validateItem r with
    | ok it =>
      simp only [runItemsAux, hv]
      exact ih (idx + 1) c hc
    | error msg =>
      by_cases hbreak : 20 ≤ c + 1
      · simp only [runItemsAux, hv, if_pos hbreak, List.length_cons,
          List.length_nil]
        omega
      · have hc' : c + 1 < 20 := by omega
        have := ih (idx + 1) (c + 1) hc'
        simp only [runItemsAux, hv, if_neg hbreak, List.length_cons]
        omega

theorem runItemsAux_accepted_le (l : List RawItem) :
    ∀ (idx c : Nat), (runItemsAux idx c l).accepted ≤ l.length := by
  induction l with
  | nil => intro idx c; simp [runItemsAux]
  | cons r rest ih =>
    intro idx c
    cases hv : validateItem r with
    | ok it =>
      simp only [runItemsAux, hv, List.length_cons]
      exact Nat.succ_le_succ (ih (idx + 1) c)
    | error msg =>
      by_cases hbreak : 20 ≤ c + 1
      · simp only [runItemsAux, hv, if_pos hbreak, List.length_cons]
        omega
      · simp only [runItemsAux, hv, if_neg hbreak, List.length_cons]
        exact le_trans (ih (idx + 1) (c + 1)) (Nat.le_succ _)

theorem cappedPrefix_all (l : List RawItem) :
    ∀ (b : Nat), (l.countP fun r => !(validateItem r).isOk) < b →
      cappedPrefix b l = l := by
  induction l with
  | nil => intro b _; rfl
  | cons r rest ih =>
    intro b hcount
    rw [List.countP_cons] at hcount
    cases hv : validateItem r with
    | ok it =>
      have hp : (!(validateItem r).isOk) = false := by rw [hv]; rfl
      rw [hp] at hcount
      simp at hcount
      simp only [cappedPrefix, hv]
      rw [ih b (by omega)]
    | error msg =>
      have hp : (!(validateItem r).isOk) = true := by rw [hv]; rfl
      rw [hp] at hcount
      simp at hcount
      have hb : ¬(b ≤ 1) := by omega
      simp only [cappedPrefix, hv, if_neg hb]
      rw [ih (b - 1) (by omega)]

theorem cappedPrefix_subset (l : List RawItem) :
    ∀ (b : Nat) (r : RawItem), r ∈ cappedPrefix b l → r ∈ l := by
  induction l with
  | nil => intro b r h; exact absurd h (by simp [cappedPrefix])
  | cons x rest ih =>
    intro b r h
    cases hv : validateItem x with
    | ok it =>
      simp only [cappedPrefix, hv] at h
      rcases List.mem_cons.mp h with rfl | hm
      · exact List.mem_cons_self _ _
      · exact List.mem_cons_of_mem _ (ih b r hm)
    | error msg =>
      simp only [cappedPrefix, hv] at h
      by_cases hb : b ≤ 1
      · rw [if_pos hb] at h
        rcases List.mem_cons.mp h with rfl | hm
        · exact List.mem_cons_self _ _
        · exact absurd hm (List.not_mem_nil _)
      · rw [if_neg hb] at h
        rcases List.mem_cons.mp h with rfl | hm
        · exact List.mem_cons_self _ _
        · exact List.mem_cons_of_mem _ (ih (b - 1) r hm)

/-- C4 (amended): every item of the examined prefix is validated
independently, but the loop stops as soon as 20 item errors have been
collected: the accepted items are exactly the in-order validation
successes of the prefix up to and including the 20th failing item, the
accepted counter counts them, at most 20 error entries are produced, and
whenever fewer than 20 items of the envelope fail validation the examined
prefix is the whole list, i.e. validation is fully independent.  (Items
after the 20th failure are neither validated nor accepted; they are only
counted as rejected — see the counterexample.) -/
theorem c4_item_validation_amended (raws : List RawItem) :
    (runItems raws).validItems =
      (cappedPrefix 20 raws).filterMap (fun r => (validateItem r).toOption) ∧
    (runItems raws).accepted = (runItems raws).validItems.length ∧
    (runItems raws).errors.length ≤ 20 ∧
    ((raws.countP fun r => !(validateItem r).isOk) < 20 →
      (runItems raws).validItems =
        raws.filterMap fun r => (validateItem r).toOption) := by
  refine ⟨runItemsAux_validItems raws 0 0 (by omega),
    runItemsAux_accepted raws 0 0, ?_, ?_⟩
  · have := runItemsAux_errors_le raws 0 0 (by omega)
    show (runItemsAux 0 0 raws).errors.length ≤ 20
    omega
  · intro hcount
    show (runItemsAux 0 0 raws).validItems = _
    rw [runItemsAux_validItems raws 0 0 (by omega), cappedPrefix_all raws 20 hcount]

/-- An item failing `serial_number` length validation. -/
def c4BadRaw : RawItem :=
  ⟨"short", none, "rps", "tok", "2026-01-02T03:04:05+00:00"⟩

/-- A fully valid item. -/
def c4GoodRaw : RawItem :=
  ⟨"ABCDEFGH12345678", none, "rps", "tok", "2026-01-02T03:04:05+00:00"⟩

/-- Twenty failing items followed by one valid item. -/
def c4DemoList : List RawItem := List.replicate 20 c4BadRaw ++ [c4GoodRaw]

theorem c4_item_validation_counterexample :
    (validateItem c4GoodRaw).isOk = true ∧
    c4GoodRaw ∈ c4DemoList ∧
    (runItems c4DemoList).accepted = 0 ∧
    (runItems c4DemoList).validItems = [] :=
  ⟨by decide, by decide, by decide, by decide⟩

theorem c4_item_validation_amended_witness :
    ((([c4BadRaw, c4GoodRaw] : List RawItem).countP
        fun r => !(validateItem r).isOk) < 20) ∧
    (runItems [c4BadRaw, c4GoodRaw]).validItems =
      ([c4BadRaw, c4GoodRaw] : List RawItem).filterMap
        fun r => (validateItem r).toOption := by
  have h : ((([c4BadRaw, c4GoodRaw] : List RawItem).countP
      fun r => !(validateItem r).isOk) < 20) := by decide
  exact ⟨h, (c4_item_validation_amended [c4BadRaw, c4GoodRaw]).2.2.2 h⟩

/-!
Envelope validation and the endpoint pipeline (`src/ingest/main.py`,
`src/ingest/schemas.py`).  A raw envelope models the decoded JSON body
with its optional top-level fields; the HTTP, JSON-decoding and gzip
layers in front of it reject malformed bodies before this code runs. -/

/-- Decoded JSON body of an ingest or test call. -/
structure RawEnvelope where
  schema_version : Option Nat
  sent_at : Option String
  client_request_id : Option String
  items : Option (List RawItem)
deriving Repr, DecidableEq

/-- `IngestRequest`/`TestRequest.validate_client_request_id`
(`src/ingest/schemas.py`): optional, at most 128 chars, charset
`[A-Za-z0-9._-]` (the empty string skips the charset check, mirroring the
`if v and not re.match(...)` truthiness test). -/
def validate_client_request_id : Option String → Except String (Option String)
  | none => .ok none
  | some c =>
    if 128 < c.length then .error "client_request_id: too long"
    else if c ≠ "" ∧
        ¬(c.data.all fun ch => ch.isAlphanum || ch = '.' || ch = '_' || ch = '-') then
      .error "Invalid charset: only [A-Za-z0-9._-]"
    else .ok (some c)

/-- A validated `IngestRequest` envelope. -/
structure IngestEnvelope where
  sent_at : PyDatetime
  client_request_id : Option String
  items : List RawItem
deriving Repr, DecidableEq

/-- `IngestRequest.model_validate` (`src/ingest/schemas.py` lines 35-61):
`schema_version` must equal 1, `sent_at` is required and timezone-aware,
`client_request_id` optional with charset check, `items` required with
1..100 entries (raw dicts, re-validated per item by the endpoint). -/
def validateIngestEnvelope (raw : RawEnvelope) : Except String IngestEnvelope :=
  if raw.schema_version ≠ some 1 then .error "schema_version: must be 1"
  else
    match raw.sent_at with
    | none => .error "sent_at: field required"
    | some sstr =>
      match validate_sent_at sstr with
      | .error e => .error e
      | .ok sent =>
        match validate_client_request_id raw.client_request_id with
        | .error e => .error e
        | .ok crid =>
          match raw.items with
          | none => .error "items: field required"
          | some l =>
            if l.length < 1 ∨ 100 < l.length then
              .error "items must have length 1..100"
            else .ok ⟨sent, crid, l⟩

/-- A validated `TestRequest` envelope (all fields optional). -/
structure TestEnvelope where
  sent_at : Option PyDatetime
  client_request_id : Option String
  items : Option (List RawItem)
deriving Repr, DecidableEq

/-- `TestRequest.model_validate` (`src/ingest/schemas.py` lines 63-103):
everything optional, but when `items` is present `schema_version` and
`sent_at` are required and the item count is capped at 100. -/
def validateTestEnvelope (raw : RawEnvelope) : Except String TestEnvelope :=
  if ¬(raw.schema_version = none ∨ raw.schema_version = some 1) then
    .error "schema_version: must be 1"
  else
    match raw.sent_at with
    | some sstr =>
      match validate_sent_at sstr with
      | .error e => .error e
      | .ok sent =>
        match validate_client_request_id raw.client_request_id with
        | .error e => .error e
        | .ok crid =>
          match raw.items with
          | some l =>
            if raw.schema_version = none then
              .error "schema_version and sent_at required when items present"
            else if 100 < l.length then .error "items must have length <=100"
            else .ok ⟨some sent, crid, some l⟩
          | none => .ok ⟨some sent, crid, none⟩
    | none =>
      match validate_client_request_id raw.client_request_id with
      | .error e => .error e
      | .ok crid =>
        match raw.items with
        | some _ => .error "schema_version and sent_at required when items present"
        | none => .ok ⟨none, crid, none⟩

/-- The record `enqueue_batch` (`src/ingest/queue.py` lines 13-28) appends
to the stream: request metadata plus the serialized accepted items (an
absent `client_request_id` becomes the empty string). -/
structure EnqueuedRecord where
  request_id : String
  client_request_id : String
  mb_ip : String
  sent_at : PyDatetime
  items : List Item
deriving Repr, DecidableEq

/-- Outcome of `process_request` on a structurally valid envelope. -/
structure ProcResult where
  received : Nat
  accepted : Nat
  rejected : Nat
  errors : List ErrorDetail
  validItems : List Item
  enqueued : Option EnqueuedRecord
deriving Repr, DecidableEq

/-- The shared request processor `process_request`
(`src/ingest/main.py` lines 61-102) after envelope validation: run the
per-item loop, compute `rejected = received - accepted`, enqueue exactly
the accepted items when called with `enqueue=True`, at least one item was
accepted and `sent_at` is present, and cap the reported errors at 20. -/
def process_request (enqueue : Bool) (request_id mb_ip : String)
    (client_request_id : Option String) (sent_at : Option PyDatetime)
    (received : Nat) (items : List RawItem) : ProcResult :=
  let r := runItems items
  let rejected := received - r.accepted
  let enqueued :=
    match enqueue, r.validItems, sent_at with
    | true, _ :: _, some dt =>
      some ⟨request_id, client_request_id.getD "", mb_ip, dt, r.validItems⟩
    | _, _, _ => none
  ⟨received, r.accepted, rejected, r.errors.take 20, r.validItems, enqueued⟩

/-- The `POST /v1/ingest` handler body: validate the envelope (an invalid
envelope raises HTTP 400), then process with `enqueue=True`.  `received`
counts the raw `items` value of the body, as in
`len(data.get("items", []))`. -/
def ingest (request_id mb_ip : String) (raw : RawEnvelope) :
    Except String ProcResult :=
  (validateIngestEnvelope raw).map fun env =>
    process_request true request_id mb_ip env.client_request_id (some env.sent_at)
      ((raw.items.getD []).length) env.items

/-- The `POST /v1/ingest/test` handler body: validate the `TestRequest`
envelope, process with `enqueue=False`, and report the mode discriminator
(`"ping"` iff zero items were received). -/
def ingest_test (request_id mb_ip : String) (raw : RawEnvelope) :
    Except String (ProcResult × String) :=
  (validateTestEnvelope raw).map fun env =>
    let pr := process_request false request_id mb_ip env.client_request_id
      env.sent_at ((raw.items.getD []).length) (env.items.getD [])
    (pr, if pr.received = 0 then "ping" else "validate")

/-- HTTP status of the ingest endpoint: 202 on success (the decorator's
`status_code`), 400 on envelope-validation failure. -/
def ingestHttp (request_id mb_ip : String) (raw : RawEnvelope) :
    Nat × Option ProcResult :=
  match ingest request_id mb_ip raw with
  | .ok r => (202, some r)
  | .error _ => (400, none)

/-- HTTP status of the test endpoint: 200 on success, 400 on
envelope-validation failure. -/
def ingestTestHttp (request_id mb_ip : String) (raw : RawEnvelope) :
    Nat × Option (ProcResult × String) :=
  match ingest_test request_id mb_ip raw with
  | .ok r => (200, some r)
  | .error _ => (400, none)

/-- The decoded body of an empty HTTP request body:
`orjson.loads(body) if body else {}` yields the empty JSON object, whose
optional fields are all absent. -/
def emptyBodyEnvelope : RawEnvelope := ⟨none, none, none, none⟩

theorem validateIngestEnvelope_items (raw : RawEnvelope) (env : IngestEnvelope)
    (h : validateIngestEnvelope raw = .ok env) :
    raw.items = some env.items ∧ 1 ≤ env.items.length ∧ env.items.length ≤ 100 := by
  unfold validateIngestEnvelope at h
  split at h
  · exact Except.noConfusion h
  · split at h
    · exact Except.noConfusion h
    · split at h
      · exact Except.noConfusion h
      · split at h
        · exact Except.noConfusion h
        · split at h
          · exact Except.noConfusion h
          · split at h
            · exact Except.noConfusion h
            · rename_i sstr hsent sent hval crid hcrid l hitems hbounds
              obtain rfl := (Except.ok.inj h)
              refine ⟨hitems, ?_, ?_⟩ <;> simp only [] <;> omega

/-- C8: for every structurally valid ingest envelope (which the validator
constrains to 1..100 items), the response counters satisfy
`accepted + rejected = received`, the reported errors list has at most 20
entries, `received` is the envelope's item count (so every received item
is accounted for in the accepted or rejected counter), and the endpoint
answers HTTP 202. -/
theorem c8_response_counters (request_id mb_ip : String) (raw : RawEnvelope)
    (env : IngestEnvelope) (h : validateIngestEnvelope raw = .ok env) :
    ∃ pr, ingest request_id mb_ip raw = .ok pr ∧
      pr.accepted + pr.rejected = pr.received ∧
      pr.errors.length ≤ 20 ∧
      pr.received = env.items.length ∧
      1 ≤ pr.received ∧ pr.received ≤ 100 ∧
      ingestHttp request_id mb_ip raw = (202, some pr) := by
  obtain ⟨hitems, h1, h100⟩ := validateIngestEnvelope_items raw env h
  have hing : ingest request_id mb_ip raw = .ok (process_request true request_id
      mb_ip env.client_request_id (some env.sent_at)
      ((raw.items.getD []).length) env.items) := by
    rw [ingest, h]
    rfl
  have hrec : (raw.items.getD []).length = env.items.length := by
    rw [hitems]
    rfl
  have hacc : (runItems env.items).accepted ≤ env.items.length :=
    runItemsAux_accepted_le env.items 0 0
  refine ⟨_, hing, ?_, ?_, ?_, ?_, ?_, ?_⟩
  · show (runItems env.items).accepted +
      ((raw.items.getD []).length - (runItems env.items).accepted) =
      (raw.items.getD []).length
    rw [hrec]
    omega
  · show ((runItems env.items).errors.take 20).length ≤ 20
    simp [List.length_take]
  · exact hrec
  · rw [show (process_request true request_id mb_ip env.client_request_id
      (some env.sent_at) ((raw.items.getD []).length) env.items).received =
      (raw.items.getD []).length from rfl, hrec]
    omega
  · rw [show (process_request true request_id mb_ip env.client_request_id
      (some env.sent_at) ((raw.items.getD []).length) env.items).received =
      (raw.items.getD []).length from rfl, hrec]
    omega
  · rw [ingestHttp, hing]

/-- Concrete structurally valid ingest envelope with one valid item. -/
def c8DemoEnvelope : RawEnvelope :=
  ⟨some 1, some "2026-01-02T03:04:05Z", some "req-1", some [c4GoodRaw]⟩

theorem c8_response_counters_witness :
    validateIngestEnvelope c8DemoEnvelope =
      .ok ⟨⟨2026, 1, 2, 3, 4, 5, 0, some 0⟩, some "req-1", [c4GoodRaw]⟩ ∧
    ∃ pr, ingest "rid-1" "198.51.100.1" c8DemoEnvelope = .ok pr ∧
      pr.accepted + pr.rejected = pr.received ∧ pr.errors.length ≤ 20 := by
  have h : validateIngestEnvelope c8DemoEnvelope =
      .ok ⟨⟨2026, 1, 2, 3, 4, 5, 0, some 0⟩, some "req-1", [c4GoodRaw]⟩ := by rfl
  obtain ⟨pr, hp, hc, he, -⟩ :=
    c8_response_counters "rid-1" "198.51.100.1" c8DemoEnvelope _ h
  exact ⟨h, pr, hp, hc, he⟩

/-- C10: on a structurally valid envelope the ingest endpoint enqueues a
record iff at least one item was accepted; an envelope whose items all
fail still answers HTTP 202 with nothing enqueued; and an enqueued
record's item list is exactly the accepted items in their original
envelope order (each of them validating successfully from an envelope
item), so no rejected item ever reaches the broker. -/
theorem c10_enqueue_exactly_accepted (request_id mb_ip : String)
    (raw : RawEnvelope) (env : IngestEnvelope)
    (h : validateIngestEnvelope raw = .ok env) :
    ∃ pr, ingest request_id mb_ip raw = .ok pr ∧
      (pr.enqueued.isSome ↔ 0 < pr.accepted) ∧
      (pr.accepted = 0 → pr.enqueued = none ∧
        ingestHttp request_id mb_ip raw = (202, some pr)) ∧
      (∀ rec, pr.enqueued = some rec →
        rec.items = (cappedPrefix 20 env.items).filterMap
          (fun r => (validateItem r).toOption) ∧
        ∀ it ∈ rec.items, ∃ rawItem ∈ env.items, validateItem rawItem = .ok it) := by
  have hing : ingest request_id mb_ip raw = .ok (process_request true request_id
      mb_ip env.client_request_id (some env.sent_at)
      ((raw.items.getD []).length) env.items) := by
    rw [ingest, h]
    rfl
  have hacc : (process_request true request_id mb_ip env.client_request_id
      (some env.sent_at) ((raw.items.getD []).length) env.items).accepted =
      (runItems env.items).validItems.length :=
    runItemsAux_accepted env.items 0 0
  have hchar : (runItems env.items).validItems =
      (cappedPrefix 20 env.items).filterMap (fun r => (validateItem r).toOption) :=
    runItemsAux_validItems env.items 0 0 (by omega)
  refine ⟨_, hing, ?_, ?_, ?_⟩
  · rw [hacc]
    cases hv : (runItems env.items).validItems with
    | nil =>
      have he : (process_request true request_id mb_ip env.client_request_id
          (some env.sent_at) ((raw.items.getD []).length) env.items).enqueued =
          none := by
        simp [process_request, hv]
      rw [he]
      simp
    | cons a as =>
      have he : (process_request true request_id mb_ip env.client_request_id
          (some env.sent_at) ((raw.items.getD []).length) env.items).enqueued =
          some ⟨request_id, env.client_request_id.getD "", mb_ip, env.sent_at,
            (runItems env.items).validItems⟩ := by
        simp [process_request, hv]
      rw [he]
      simp
  · intro hzero
    rw [hacc] at hzero
    have hv : (runItems env.items).validItems = [] := List.length_eq_zero.mp hzero
    have he : (process_request true request_id mb_ip env.client_request_id
        (some env.sent_at) ((raw.items.getD []).length) env.items).enqueued =
        none := by
      simp [process_request, hv]
    refine ⟨he, ?_⟩
    rw [ingestHttp, hing]
  · intro rec hrec
    cases hv : (runItems env.items).validItems with
    | nil =>
      have he : (process_request true request_id mb_ip env.client_request_id
          (some env.sent_at) ((raw.items.getD []).length) env.items).enqueued =
          none := by
        simp [process_request, hv]
      rw [he] at hrec
      exact Option.noConfusion hrec
    | cons a as =>
      have he : (process_request true request_id mb_ip env.client_request_id
          (some env.sent_at) ((raw.items.getD []).length) env.items).enqueued =
          some ⟨request_id, env.client_request_id.getD "", mb_ip, env.sent_at,
            (runItems env.items).validItems⟩ := by
        simp [process_request, hv]
      rw [he] at hrec
      obtain rfl := (Option.some.inj hrec).symm
      constructor
      · show (runItems env.items).validItems = _
        exact hchar
      · intro it hit
        have hit' : it ∈ (cappedPrefix 20 env.items).filterMap
            (fun r => (validateItem r).toOption) := by
          rw [← hchar]
          exact hit
        obtain ⟨r, hrmem, hropt⟩ := List.mem_filterMap.mp hit'
        refine ⟨r, cappedPrefix_subset env.items 20 r hrmem, ?_⟩
        cases hvr : validateItem r with
        | ok a2 =>
          rw [hvr, toOption_ok] at hropt
          rw [Option.some.inj hropt]
        | error e =>
          rw [hvr, toOption_error] at hropt
          exact Option.noConfusion hropt

theorem c10_enqueue_exactly_accepted_witness :
    ∃ pr, ingest "rid-2" "198.51.100.2" c8DemoEnvelope = .ok pr ∧
      (pr.enqueued.isSome ↔ 0 < pr.accepted) ∧
      (∀ rec, pr.enqueued = some rec →
        ∀ it ∈ rec.items, ∃ rawItem ∈ ([c4GoodRaw] : List RawItem),
          validateItem rawItem = .ok it) := by
  have h : validateIngestEnvelope c8DemoEnvelope =
      .ok ⟨⟨2026, 1, 2, 3, 4, 5, 0, some 0⟩, some "req-1", [c4GoodRaw]⟩ := by rfl
  obtain ⟨pr, hp, hiff, -, hmem⟩ :=
    c10_enqueue_exactly_accepted "rid-2" "198.51.100.2" c8DemoEnvelope _ h
  exact ⟨pr, hp, hiff, fun rec hrec it hit => (hmem rec hrec).2 it hit⟩

theorem process_request_false_enqueued (request_id mb_ip : String)
    (crid : Option String) (sent : Option PyDatetime) (received : Nat)
    (items : List RawItem) :
    (process_request false request_id mb_ip crid sent received items).enqueued =
      none := by
  show (match false, (runItems items).validItems, sent with
    | true, _ :: _, some dt =>
      some (⟨request_id, crid.getD "", mb_ip, dt,
        (runItems items).validItems⟩ : EnqueuedRecord)
    | _, _, _ => none) = none
  cases (runItems items).validItems <;> cases sent <;> rfl

/-- C9: the test/dry-run endpoint runs the very same per-item validation
loop as the real ingest endpoint but never builds a broker record
(enqueue is impossible on the test path, which is the model's only
mutation of shared state), reports mode `"ping"` exactly when zero items
were received and `"validate"` otherwise, answers HTTP 200 for every
structurally valid call, and on an empty request body answers HTTP 200
with `received = 0` and mode `"ping"`. -/
theorem c9_test_mode (request_id mb_ip : String) (raw : RawEnvelope)
    (env : TestEnvelope) (h : validateTestEnvelope raw = .ok env) :
    (∃ pr mode, ingest_test request_id mb_ip raw = .ok (pr, mode) ∧
      pr.enqueued = none ∧
      (mode = "ping" ↔ pr.received = 0) ∧
      pr.accepted = (runItems (env.items.getD [])).accepted ∧
      pr.validItems = (runItems (env.items.getD [])).validItems ∧
      pr.errors = (runItems (env.items.getD [])).errors.take 20 ∧
      ingestTestHttp request_id mb_ip raw = (200, some (pr, mode))) ∧
    (∃ pr0, ingest_test request_id mb_ip emptyBodyEnvelope = .ok (pr0, "ping") ∧
      pr0.received = 0 ∧ pr0.enqueued = none ∧
      ingestTestHttp request_id mb_ip emptyBodyEnvelope =
        (200, some (pr0, "ping"))) := by
  constructor
  · have htest : ingest_test request_id mb_ip raw = .ok
        (process_request false request_id mb_ip env.client_request_id env.sent_at
          ((raw.items.getD []).length) (env.items.getD []),
        if (process_request false request_id mb_ip env.client_request_id env.sent_at
          ((raw.items.getD []).length) (env.items.getD [])).received = 0
        then "ping" else "validate") := by
      rw [ingest_test, h]
      rfl
    refine ⟨_, _, htest, process_request_false_enqueued _ _ _ _ _ _, ?_, rfl, rfl,
      rfl, ?_⟩
    · by_cases hz : (process_request false request_id mb_ip env.client_request_id
          env.sent_at ((raw.items.getD []).length) (env.items.getD [])).received = 0
      · rw [if_pos hz]
        simp [hz]
      · rw [if_neg hz]
        constructor
        · intro hcontr
          exact absurd hcontr (by decide)
        · intro hzero
          exact absurd hzero hz
    · rw [ingestTestHttp, htest]
  · refine ⟨⟨0, 0, 0, [], [], none⟩, rfl, rfl, rfl, rfl⟩

theorem c9_test_mode_witness :
    validateTestEnvelope emptyBodyEnvelope = .ok ⟨none, none, none⟩ ∧
    ∃ pr mode, ingest_test "rid-3" "198.51.100.3" emptyBodyEnvelope =
        .ok (pr, mode) ∧
      pr.enqueued = none ∧ (mode = "ping" ↔ pr.received = 0) := by
  have h : validateTestEnvelope emptyBodyEnvelope = .ok ⟨none, none, none⟩ := rfl
  obtain ⟨⟨pr, mode, hok, hen, hmode, -⟩, -⟩ :=
    c9_test_mode "rid-3" "198.51.100.3" emptyBodyEnvelope _ h
  exact ⟨h, pr, mode, hok, hen, hmode⟩

/-!
The wire-level worker (`src/worker.py` together with the consumer loop of
`src/ingest/queue.py`).  A batch message is modelled after JSON decoding:
the five flat string fields of the broker record, with `items_json`
decoded to a list of raw items.  Crucially, `process_batch` parses
`sent_at` (line 52) and each item's fields (lines 62-66) OUTSIDE the
per-item `try` block, so a parse failure there propagates out of
`process_batch`; the consumer then logs, does not acknowledge, and the
record is redelivered. -/

/-- One decoded entry of a batch message's `items_json`. -/
structure RawBatchItem where
  serial_number : String
  location : Option String
  protocol_type : String
  token : String
  token_created_at : String
deriving Repr, DecidableEq

/-- A decoded broker record (`msg` in `process_batch`). -/
structure RawBatchMsg where
  request_id : String
  client_request_id : String
  mb_ip : String
  sent_at : String
  items : List RawBatchItem
deriving Repr, DecidableEq

/-- `item["location"] if item["location"] else None`: both a JSON null and
the empty string become `None`. -/
def normLoc : Option String → Option String
  | none => none
  | some s => if s = "" then none else some s

/-- Days since 1970-01-01 of a proleptic-Gregorian civil date
(Hinnant's `days_from_civil`), used to give each parsed datetime its
absolute instant. -/
def daysFromCivil (y : Int) (m d : Nat) : Int :=
  let yAdj : Int := if m ≤ 2 then y - 1 else y
  let era : Int := (if 0 ≤ yAdj then yAdj else yAdj - 399) / 400
  let yoe : Int := yAdj - era * 400
  let mp : Int := (Int.ofNat m + 9) % 12
  let doy : Int := (153 * mp + 2) / 5 + (Int.ofNat d - 1)
  let doe : Int := yoe * 365 + yoe / 4 - yoe / 100 + doy
  era * 146097 + doe - 719468

/-- The UTC instant of a parsed datetime in microseconds since the epoch:
the image of `dt.astimezone(timezone.utc)`.  A naive datetime is
interpreted in the process's local timezone, passed in explicitly as
`localOffsetSeconds`. -/
def toUtcEpochMicros (localOffsetSeconds : Int) (dt : PyDatetime) : Int :=
  (daysFromCivil (Int.ofNat dt.year) dt.month dt.day * 86400 +
    Int.ofNat dt.hour * 3600 + Int.ofNat dt.minute * 60 + Int.ofNat dt.second -
    dt.tz.getD localOffsetSeconds) * 1000000 + Int.ofNat dt.microsecond

/-- The per-item field extraction of `process_batch` (`src/worker.py`
lines 62-66): normalize the location and parse `token_created_at` with
`datetime.fromisoformat`; an unparseable value raises (models the
uncaught exception as the error case). -/
def parseBatchItem (localOffsetSeconds : Int) (r : RawBatchItem) :
    Except String BatchItem :=
  match pyFromIso r.token_created_at.data with
  | none => .error ("Invalid isoformat string: " ++ r.token_created_at)
  | some dt =>
    .ok ⟨r.serial_number, normLoc r.location, r.protocol_type, r.token,
      toUtcEpochMicros localOffsetSeconds dt⟩

/-- The item loop of `process_batch` at the wire level: each item's
fields are parsed before its `try` block, so a parse failure aborts the
whole batch (`.error`), keeping the registry changes committed so far;
otherwise the transaction runs under the storage oracle exactly as in
`processFrom`. -/
def processMsgItems (localOffsetSeconds : Int) (mb : String)
    (oracle : Nat → ItemOutcome) :
    Nat → Registry → Stats → Stats → List ItemError → List RawBatchItem →
    Registry × Except String (Stats × Stats × List ItemError)
  | _, R, ds, ps, errs, [] => (R, .ok (ds, ps, errs))
  | idx, R, ds, ps, errs, raw :: rest =>
    match parseBatchItem localOffsetSeconds raw with
    | .error e => (R, .error e)
    | .ok it =>
      match oracle idx with
      | .ok =>
        match processItemOk mb it R with
        | (R2, dOut, pOut) =>
          processMsgItems localOffsetSeconds mb oracle (idx + 1) R2
            (ds.bump dOut) (ps.bump pOut) errs rest
      | .integrity =>
        processMsgItems localOffsetSeconds mb oracle (idx + 1) R ds ps errs rest
      | .other e =>
        processMsgItems localOffsetSeconds mb oracle (idx + 1) R ds ps
          (errs ++ [⟨idx, e⟩]) rest

/-- `process_batch` (`src/worker.py` lines 48-113) on a decoded broker
record: parse `sent_at` (outside any handler), then run the item loop;
the second component is `.error` exactly when the Python function raises. -/
def process_batch (localOffsetSeconds : Int) (msg : RawBatchMsg)
    (oracle : Nat → ItemOutcome) (R : Registry) :
    Registry × Except String (Stats × Stats × List ItemError) :=
  match pyFromIso msg.sent_at.data with
  | none => (R, .error ("Invalid isoformat string: " ++ msg.sent_at))
  | some _ =>
    processMsgItems localOffsetSeconds msg.mb_ip oracle 0 R ⟨0, 0, 0⟩ ⟨0, 0, 0⟩
      [] msg.items

/-- The acknowledge/delete decision of `consume_and_process`
(`src/ingest/queue.py` lines 44-50): the record is acknowledged and
deleted iff the processor returned normally; on an exception the record
is left unacknowledged for redelivery. -/
def consumerAcks (res : Registry × Except String (Stats × Stats × List ItemError)) :
    Bool :=
  match res.2 with
  | .ok _ => true
  | .error _ => false

/-- The item errors the loop records under an outcome oracle: one entry,
in order, for every item whose transaction raised a non-integrity
exception. -/
def expectedErrors (oracle : Nat → ItemOutcome) : Nat → List RawBatchItem →
    List ItemError
  | _, [] => []
  | idx, _ :: rest =>
    match oracle idx with
    | .other e => ⟨idx, e⟩ :: expectedErrors oracle (idx + 1) rest
    | _ => expectedErrors oracle (idx + 1) rest

theorem processMsgItems_ok (localOffsetSeconds : Int) (mb : String)
    (oracle : Nat → ItemOutcome) (l : List RawBatchItem) :
    ∀ (idx : Nat) (R : Registry) (ds ps : Stats) (errs : List ItemError),
      (∀ r ∈ l, (parseBatchItem localOffsetSeconds r).isOk = true) →
      ∃ R2 ds2 ps2,
        processMsgItems localOffsetSeconds mb oracle idx R ds ps errs l =
          (R2, .ok (ds2, ps2, errs ++ expectedErrors oracle idx l)) := by
  induction l with
  | nil => intro idx R ds ps errs _; exact ⟨R, ds, ps, by simp [processMsgItems, expectedErrors]⟩
  | cons raw rest ih =>
    intro idx R ds ps errs hparse
    have hhead := hparse raw (List.mem_cons_self raw rest)
    have htail : ∀ r ∈ rest, (parseBatchItem localOffsetSeconds r).isOk = true :=
      fun r hr => hparse r (List.mem_cons_of_mem _ hr)
    cases hp : parseBatchItem localOffsetSeconds raw with
    | error e =>
      rw [hp] at hhead
      exact absurd hhead (by simp [Except.isOk, Except.toBool])
    | ok it =>
      cases ho : oracle idx with
      | ok =>
        rcases hpo : processItemOk mb it R with ⟨R2, dOut, pOut⟩
        obtain ⟨R3, ds3, ps3, hrec⟩ :=
          ih (idx + 1) R2 (ds.bump dOut) (ps.bump pOut) errs htail
        refine ⟨R3, ds3, ps3, ?_⟩
        simp only [processMsgItems, hp, ho, hpo, hrec, expectedErrors]
      | integrity =>
        obtain ⟨R3, ds3, ps3, hrec⟩ := ih (idx + 1) R ds ps errs htail
        refine ⟨R3, ds3, ps3, ?_⟩
        simp only [processMsgItems, hp, ho, hrec, expectedErrors]
      | other e =>
        obtain ⟨R3, ds3, ps3, hrec⟩ :=
          ih (idx + 1) R ds ps (errs ++ [⟨idx, e⟩]) htail
        refine ⟨R3, ds3, ps3, ?_⟩
        simp only [processMsgItems, hp, ho, hrec, expectedErrors,
          List.append_assoc, List.cons_append, List.nil_append]

/-- C5 (amended): for every batch message whose `sent_at` and per-item
`token_created_at` fields parse (which is every message the ingest
endpoint itself enqueues), any exception raised inside an item's
transaction other than the integrity-race path is caught, recorded as a
per-item error `{idx, message}`, and processing continues with the next
item; `process_batch` returns normally even when some items produced
errors, and the consumer then acknowledges and deletes the record.  (When
an item's fields do not parse, the exception is raised outside the
per-item `try` block, `process_batch` does throw, and the record is not
acknowledged — see the counterexample.) -/
theorem c5_item_exceptions_amended (localOffsetSeconds : Int)
    (msg : RawBatchMsg) (oracle : Nat → ItemOutcome) (R : Registry)
    (hsent : (pyFromIso msg.sent_at.data).isSome = true)
    (hitems : ∀ r ∈ msg.items,
      (parseBatchItem localOffsetSeconds r).isOk = true) :
    ∃ R2 ds ps,
      process_batch localOffsetSeconds msg oracle R =
        (R2, .ok (ds, ps, expectedErrors oracle 0 msg.items)) ∧
      consumerAcks (process_batch localOffsetSeconds msg oracle R) = true := by
  cases hs : pyFromIso msg.sent_at.data with
  | none =>
    rw [hs] at hsent
    exact absurd hsent (by simp)
  | some dt =>
    obtain ⟨R2, ds, ps, hrec⟩ := processMsgItems_ok localOffsetSeconds msg.mb_ip
      oracle msg.items 0 R ⟨0, 0, 0⟩ ⟨0, 0, 0⟩ [] hitems
    have hpb : process_batch localOffsetSeconds msg oracle R =
        (R2, .ok (ds, ps, expectedErrors oracle 0 msg.items)) := by
      simp only [process_batch, hs]
      simpa using hrec
    exact ⟨R2, ds, ps, hpb, by simp [consumerAcks, hpb]⟩

/-- A broker record whose envelope fields are fine but whose single item
carries an unparseable `token_created_at`. -/
def c5BadMsg : RawBatchMsg :=
  ⟨"req-9", "", "203.0.113.9", "2026-01-02T03:04:05+00:00",
   [⟨"SN-X0000000000001", none, "rps", "tok", "not-a-date"⟩]⟩

theorem c5_item_exceptions_counterexample :
    (pyFromIso c5BadMsg.sent_at.data).isSome = true ∧
    (process_batch 0 c5BadMsg (fun _ => ItemOutcome.ok) emptyRegistry).2 =
      Except.error "Invalid isoformat string: not-a-date" ∧
    consumerAcks (process_batch 0 c5BadMsg (fun _ => ItemOutcome.ok)
      emptyRegistry) = false :=
  ⟨by decide, rfl, by decide⟩

/-- A well-formed two-item record whose first item's transaction raises a
non-integrity exception. -/
def c5DemoMsg : RawBatchMsg :=
  ⟨"req-10", "", "203.0.113.10", "2026-01-02T03:04:05+00:00",
   [⟨"SN-Y0000000000001", none, "rps", "tok", "2026-01-02T03:04:05+00:00"⟩,
    ⟨"SN-Y0000000000002", none, "pms", "tok", "2026-01-02T04:04:05+00:00"⟩]⟩

def c5DemoOracle : Nat → ItemOutcome :=
  fun idx => if idx = 0 then ItemOutcome.other "boom" else ItemOutcome.ok

theorem c5_item_exceptions_amended_witness :
    ∃ R2 ds ps,
      process_batch 0 c5DemoMsg c5DemoOracle emptyRegistry =
        (R2, .ok (ds, ps, expectedErrors c5DemoOracle 0 c5DemoMsg.items)) ∧
      consumerAcks (process_batch 0 c5DemoMsg c5DemoOracle emptyRegistry) = true :=
  c5_item_exceptions_amended 0 c5DemoMsg c5DemoOracle emptyRegistry
    (by decide) (by decide)
